import Mathlib

/-!
Verification of the `generic.js` view-composition layer: a shallow embedding
of the CollectionView reconciliation engine (src/src/generic.js), the base
View child bookkeeping (generic/View), and the TableView sort/show-all layer
(generic/TableView), together with proofs and refutations of the spec claims.

Conventions of the embedding:
* Backbone model identities: every model has a non-null client id `cid : Nat`
  (Backbone always assigns one) and an optional persistent `id : Option Nat`
  (the `"id"` attribute, `none` when unset/null).
* A child view is its own client id `vcid` plus its bound model.
* The `children` array starts as `undefined` in the source and is created on
  the first `add`; it is embedded as the empty list, which behaves the same
  in every code path exercised here (the `children !== undefined` guard in
  `addItemView` only matters together with a zero limit, which `initialize`
  never configures).
* DOM presence: `dom` is the ordered content of the items container; a child
  element is appended there exactly where the source calls `appendChild` /
  `appendTo` / `html`, and jQuery moves (`appendTo` on an attached element)
  are modelled as remove-then-append.
* The composed filter `checkFilter = collection.checkFilter && checkSearchFilter`
  is embedded as one predicate parameter `f : Model → Bool`; the collection's
  own `checkFilter` lives outside this repository and the search half is
  analysed separately (see the RegExp fragment at the end of this file).
-/

/-- A Backbone model: non-null client id plus optional `"id"` attribute. -/
structure Model where
  cid : Nat
  id : Option Nat
deriving DecidableEq, Repr

/-- A child view: its own client id and the model it was created for. -/
structure View where
  vcid : Nat
  model : Model
deriving DecidableEq, Repr

instance : Inhabited View := ⟨⟨0, ⟨0, none⟩⟩⟩

/-- State of a `CollectionView` (src/src/generic.js): the children array,
the backing collection's models in order, the configured `limit`
(`none` = null), the `rendered` flag, the items-container content, and the
Backbone-wide counter from which fresh view cids are drawn. -/
structure CVState where
  children : List View
  collection : List Model
  limit : Option Nat
  rendered : Bool
  dom : List View
  nextCid : Nat
deriving DecidableEq, Repr

/-- The match test from `findViewByModel` (generic.js line 210), on the model
pair: `view.model.cid === model.cid`, or both `"id"` attributes non-null and
equal.  (The `view.model.cid != null` guard is always true: Backbone models
always carry a cid.) -/
def modelMatches (a m : Model) : Bool :=
  (a.cid == m.cid) || (a.id.isSome && a.id == m.id)

/-- `findViewByModel`'s per-view test: the view's model matches the model. -/
def viewMatches (v : View) (m : Model) : Bool :=
  modelMatches v.model m

/-- `findViewByModel` (generic.js lines 205-216): an `_.each` over `children`
that overwrites `result` with the index of every matching view, so the LAST
matching index wins; `-1` (here `none`) when no view matches. -/
def findViewByModel (children : List View) (m : Model) : Option Nat :=
  (children.foldl
    (fun (acc : Option Nat × Nat) v =>
      (if viewMatches v m then some acc.2 else acc.1, acc.2 + 1))
    (none, 0)).1

/-- `var limit = self.limit || self.collection.length`: null (and the falsy 0)
fall back to the collection length. -/
def effLimit (limit : Option Nat) (collLen : Nat) : Nat :=
  match limit with
  | none => collLen
  | some l => if l = 0 then collLen else l

/-- `addItemView` (generic.js lines 175-198).  `container = none` stands for
`options.container` being absent (the element goes to `getItemsContainer()`,
i.e. `dom`); `container = some frag` threads an explicit fragment, which is
returned updated.  Skips when a view for the model already exists, when the
children count has reached the effective limit, or when the filter rejects
the model; otherwise creates a view with a fresh cid, appends it to
`children`, and (only if rendered) appends its element and renders it. -/
def addItemView (f : Model → Bool) (st : CVState) (m : Model)
    (container : Option (List View)) : CVState × Option (List View) :=
  match findViewByModel st.children m with
  | some _ => (st, container)
  | none =>
    let limit := effLimit st.limit st.collection.length
    if st.children.length ≥ limit || !(f m) then
      (st, container)
    else
      let v : View := ⟨st.nextCid, m⟩
      let st' : CVState :=
        { st with children := st.children ++ [v], nextCid := st.nextCid + 1 }
      if st.rendered then
        match container with
        | none => ({ st' with dom := st.dom ++ [v] }, none)
        | some frag => (st', some (frag ++ [v]))
      else
        (st', container)

/-- `removeItemView` (generic.js lines 144-167): `_.find` the first child
whose model cid equals the removed model's cid; if found, `View.remove`
rejects it from `children` (by view cid) and, when rendered, `destroy` takes
its element out of the DOM.  Then the backfill step: with
`limit = self.limit || collection.length` and `diff = limit - children.length`,
pull `collection.slice(children.length, children.length + diff)` and run each
model through `addItemView`. -/
def removeItemView (f : Model → Bool) (st : CVState) (m : Model) : CVState :=
  let st1 :=
    match st.children.find? (fun v => v.model.cid == m.cid) with
    | some v =>
      { st with
        children := st.children.filter (fun w => !(w.vcid == v.vcid)),
        dom := if st.rendered then
                 st.dom.filter (fun w => !(w.vcid == v.vcid))
               else st.dom }
    | none => st
  let limit := effLimit st1.limit st1.collection.length
  let diff := limit - st1.children.length
  if diff > 0 then
    let models := (st1.collection.drop st1.children.length).take diff
    models.foldl (fun acc mm => (addItemView f acc mm none).1) st1
  else
    st1

/-- Insert a model at a position (Backbone `collection.add` with `{at: i}`;
appending past the end is appending at the end, the default). -/
def insertAt (pos : Nat) (m : Model) : List Model → List Model
  | [] => [m]
  | x :: xs =>
    match pos with
    | 0 => m :: x :: xs
    | pos' + 1 => x :: insertAt pos' m xs

/-- A collection notification: `add` (the model is already in the collection,
at the position it was inserted, when the handler runs) or `remove` (the
model has already left the collection when the handler runs). -/
inductive CEvent where
  | add (pos : Nat) (m : Model)
  | remove (m : Model)
deriving DecidableEq, Repr

/-- Deliver one collection notification: mutate the collection as Backbone
already has by handler time, then run the subscribed handler
(`addItemView` / `removeItemView`). -/
def step (f : Model → Bool) (st : CVState) (e : CEvent) : CVState :=
  match e with
  | .add pos m =>
    let st1 := { st with collection := insertAt pos m st.collection }
    (addItemView f st1 m none).1
  | .remove m =>
    let st1 :=
      { st with collection := st.collection.filter (fun x => !(x.cid == m.cid)) }
    removeItemView f st1 m

/-- `CollectionView.initialize` with a collection: starting from an empty
view, run `addItemView` over every model of the collection in order
(generic.js lines 86-88).  `startCid` seeds the fresh-cid counter. -/
def initCollectionView (f : Model → Bool) (models : List Model)
    (limit : Option Nat) (startCid : Nat) : CVState :=
  let st0 : CVState :=
    { children := [], collection := models, limit := limit,
      rendered := false, dom := [], nextCid := startCid }
  models.foldl (fun acc m => (addItemView f acc m none).1) st0

/-- `CollectionView.render` (generic.js lines 254-267): set `rendered`, move
every child's element into a fragment in children order, and append the
fragment to the items container. -/
def renderCV (st : CVState) : CVState :=
  { st with
    rendered := true,
    dom := st.dom.filter (fun w => !(st.children.any (fun v => v.vcid == w.vcid)))
           ++ st.children }

/-- `view.$el.appendTo(fragment)`: a jQuery move — the element leaves its
current position (if it is in the fragment) and is appended at the end. -/
def moveToEnd (frag : List View) (v : View) : List View :=
  frag.filter (fun w => !(w.vcid == v.vcid)) ++ [v]

/-- `if (limit && renderedViews >= limit)` inside `onCollectionSort`: the
saved limit truncates only when it is neither null nor the falsy 0. -/
def limitTruncates (limit : Option Nat) (renderedViews : Nat) : Bool :=
  match limit with
  | none => false
  | some l => if l = 0 then false else decide (renderedViews ≥ l)

/-- The `_.each(models, ...)` loop of `onCollectionSort` (generic.js lines
302-318), with the saved (outer) limit `sl`, the staging fragment and the
`renderedViews` counter threaded through.  A model past the saved limit is
skipped without incrementing the counter; an already-viewed model has its
element moved to the end of the fragment; otherwise `addItemView` runs with
the fragment as explicit container.  The state's own `limit` has been set to
`collection.length + 1` by the caller for the duration of the loop. -/
def sortLoop (f : Model → Bool) (sl : Option Nat) :
    CVState → List View → Nat → List Model → CVState × List View
  | st, frag, _, [] => (st, frag)
  | st, frag, r, m :: ms =>
    if limitTruncates sl r then
      sortLoop f sl st frag r ms
    else
      match findViewByModel st.children m with
      | some idx =>
        sortLoop f sl st (moveToEnd frag (st.children.getD idx default)) (r + 1) ms
      | none =>
        let res := addItemView f st m (some frag)
        sortLoop f sl res.1 (res.2.getD frag) (r + 1) ms

/-- `onCollectionSort` (generic.js lines 293-321): filter the collection,
save the limit and raise it to `collection.length + 1` for the pass, walk the
filtered models building the staging fragment, restore the limit, and commit
the fragment as the whole content of the items container
(`$(container).html(fragment)`). -/
def onCollectionSort (f : Model → Bool) (st : CVState) : CVState :=
  let models := st.collection.filter f
  let sl := st.limit
  let res :=
    sortLoop f sl { st with limit := some (st.collection.length + 1) } [] 0 models
  { res.1 with limit := sl, dom := res.2 }

/-- `search(value)` (generic.js lines 109-113) updates no children directly:
it trims the value into `searchFilter` and triggers the reconciliation pass.
Here the resulting composed predicate is passed in by the caller, so only the
pass itself is replayed. -/
def searchThenSort (f : Model → Bool) (st : CVState) : CVState :=
  onCollectionSort f st

/-- State of a `TableView` (src/unnamed/part_001) beyond its CollectionView
core: the `showAll` flag (initially absent/falsy) and the stashed `_limit`
(`none` when deleted/unset). -/
structure TVState where
  cv : CVState
  showAll : Bool
  storedLimit : Option Nat
deriving DecidableEq, Repr

/-- `toggleShowAll` (part_001 lines 92-105): leaving show-all restores
`limit` from `_limit` and deletes the stash; entering show-all stashes
`limit` and nulls it; then the flag flips and `onCollectionSort` runs. -/
def toggleShowAll (f : Model → Bool) (tv : TVState) : TVState :=
  let tv1 :=
    if tv.showAll then
      { tv with cv := { tv.cv with limit := tv.storedLimit }, storedLimit := none }
    else
      { tv with storedLimit := tv.cv.limit, cv := { tv.cv with limit := none } }
  let tv2 := { tv1 with showAll := !tv.showAll }
  { tv2 with cv := onCollectionSort f tv2.cv }

/-! ### TableView header sorting (src/unnamed/part_001) -/

/-- The tri-state of a header affector's trailing icon `<i>`: no class
(hidden), `icon-sort-up` shown, or `icon-sort-down` shown. -/
inductive SortIcon where
  | unsorted
  | ascending
  | descending
deriving DecidableEq, Repr

/-- One rendered header cell: its title text and its affector icon state. -/
structure THeader where
  title : String
  icon : SortIcon
deriving DecidableEq, Repr

/-- A TableView header row plus the backing collection's length and the log
of `collection.sortByColumn(column, order)` requests issued so far. -/
structure TableState where
  headers : List THeader
  collectionLength : Nat
  calls : List (String × String)
deriving DecidableEq, Repr

/-- JavaScript `String.prototype.toLowerCase` on the ASCII titles used here. -/
def jsToLower (s : String) : String :=
  ⟨s.data.map Char.toLower⟩

/-- `sortable(column)` (part_001 lines 221-223): membership of the lowercased
title in the fixed allow-list. -/
def sortable (column : String) : Bool :=
  ["status", "name", "provider", "compute platform", "type", "zone",
    "sensor", "region"].contains (jsToLower column)

/-- `updateHeaderIcons` (part_001 lines 230-249): every header whose text
differs from the clicked one has its icon hidden and stripped of both sort
classes; the clicked header's icon toggles down→up, up→down, and bare→up
(shown). -/
def updateHeaderIcons (headers : List THeader) (clicked : String) : List THeader :=
  headers.map fun h =>
    if h.title ≠ clicked then
      { h with icon := .unsorted }
    else
      { h with icon :=
          match h.icon with
          | .descending => .ascending
          | .ascending => .descending
          | .unsorted => .ascending }

/-- The toggle the clicked affector's icon undergoes (the three-way branch
at part_001 lines 240-248): down→up, up→down, bare→up. -/
def toggleIcon : SortIcon → SortIcon
  | .descending => .ascending
  | .ascending => .descending
  | .unsorted => .ascending

/-- Icon of the clicked affector after the update (`a.find("i:last")` reads
the clicked anchor directly; looked up here by its title text). -/
def clickedIcon (headers : List THeader) (clicked : String) : SortIcon :=
  match headers.find? (fun h => h.title == clicked) with
  | some h => h.icon
  | none => .unsorted

/-- `sort(e)` (part_001 lines 176-196): lowercase the anchor text into the
column name; when the collection has more than one model, update the header
icons, read the sort order off the clicked affector's new icon
(`icon-sort-up` → "asc", otherwise "desc"), and delegate to
`collection.sortByColumn(column, order)` — logged as one emitted call. -/
def sortClick (ts : TableState) (clickedTitle : String) : TableState :=
  let column := jsToLower clickedTitle
  if ts.collectionLength > 1 then
    let headers := updateHeaderIcons ts.headers clickedTitle
    let order :=
      if clickedIcon headers clickedTitle = .ascending then "asc" else "desc"
    { ts with headers := headers, calls := ts.calls ++ [(column, order)] }
  else
    ts

/-! ### The base View's child lifecycle (src/unnamed/part_003) -/

/-- A view node of the base `View` class: its cid, its `destroyed` flag and
its owned children. -/
inductive VNode where
  | mk (vcid : Nat) (destroyed : Bool) (children : List VNode)

def VNode.vcid : VNode → Nat
  | .mk c _ _ => c

def VNode.destroyed : VNode → Bool
  | .mk _ d _ => d

def VNode.children : VNode → List VNode
  | .mk _ _ ch => ch

mutual
/-- `View.destroy` (part_003 lines 148-160): detach the element, set
`destroyed = true`, then recursively destroy every child, then trigger the
`"destroy"` event.  The children list itself is never cleared here, and the
`"destroy"` subscription that `add` tried to install for the parent was
registered with the global `self` instead of `this`
(`childView.on("destroy", self.onChildViewDestroyed, self)`, part_003 line
181), so `onChildViewDestroyed` never runs and no parent prunes the child:
the destroyed children stay in `children`. -/
def destroyNode : VNode → VNode
  | .mk c _ ch => .mk c true (destroyList ch)

def destroyList : List VNode → List VNode
  | [] => []
  | x :: xs => destroyNode x :: destroyList xs
end

mutual
/-- The order in which `destroy` marks nodes destroyed: each node sets its
own `destroyed` flag (line 150) before iterating its children (lines
154-158), so the node's own cid precedes all of its children's. -/
def destroyTrace : VNode → List Nat
  | .mk c _ ch => c :: destroyTraceList ch

def destroyTraceList : List VNode → List Nat
  | [] => []
  | x :: xs => destroyTrace x ++ destroyTraceList xs
end

/-! ### The base View's child registry (`add` / `get` / `remove`) -/

/-- A registered child for the registry bookkeeping: its cid and the
identifier it was registered under (`childView.id || childView.cid`). -/
structure RChild where
  cid : Nat
  key : String
deriving DecidableEq, Repr

/-- The bookkeeping pair of `View.add`: the ordered `children` array and the
`childrenMap` object from identifiers to positional indices. -/
structure Registry where
  children : List RChild
  childrenMap : List (String × Nat)
deriving DecidableEq, Repr

/-- JavaScript object property write: last write wins for the key. -/
def mapSet (m : List (String × Nat)) (k : String) (v : Nat) : List (String × Nat) :=
  m.filter (fun p => !(p.1 == k)) ++ [(k, v)]

/-- `View.add` (part_003 lines 170-184): push the child onto `children` and
record `childrenMap[childId] = children.length - 1`. -/
def registryAdd (r : Registry) (c : RChild) : Registry :=
  { children := r.children ++ [c],
    childrenMap := mapSet r.childrenMap c.key r.children.length }

/-- `View.get` (part_003 lines 191-197): `idx = childrenMap[childId]` then
`children[idx]` — `undefined` when the key is absent or the index is out of
range. -/
def registryGet (r : Registry) (k : String) : Option RChild :=
  match r.childrenMap.find? (fun p => p.1 == k) with
  | none => none
  | some p => r.children.get? p.2

/-- `View.remove` (part_003 lines 204-209): rebuild `children` without the
views whose cid equals the removed child's — `childrenMap` is left untouched,
so its stored indices go stale. -/
def registryRemove (r : Registry) (c : RChild) : Registry :=
  { r with children := r.children.filter (fun w => !(w.cid == c.cid)) }

/-! ### The search filter's RegExp fragment (generic.js lines 115-136)

`checkSearchFilter` compiles the raw search string with
`RegExp(self.searchFilter, "i")` and runs `pattern.test(v)` over the searched
attribute values.  The host RegExp semantics are modelled for the fragment
exercised by the spec: literal characters, the `.` wildcard and grouping
parentheses (which, without quantifiers or alternation, only concatenate);
per ECMAScript, a pattern with unbalanced parentheses — such as `"("` — is a
SyntaxError thrown by the constructor. -/

/-- ECMAScript RegExp syntactic validity for the modelled fragment: the
parentheses must balance (counter never negative, zero at the end). -/
def regexValidAux : List Char → Nat → Bool
  | [], depth => depth == 0
  | c :: cs, depth =>
    if c = '(' then regexValidAux cs (depth + 1)
    else if c = ')' then
      match depth with
      | 0 => false
      | d + 1 => regexValidAux cs d
    else regexValidAux cs depth

def regexValid (pattern : List Char) : Bool :=
  regexValidAux pattern 0

/-- A compiled token of the modelled fragment: a literal character or the
`.` wildcard.  Bare group parentheses contribute no token of their own. -/
inductive RTok where
  | lit (c : Char)
  | dot
deriving DecidableEq, Repr

/-- Compile a (valid) pattern to its token sequence. -/
def lexRegex (pattern : List Char) : List RTok :=
  pattern.filterMap fun c =>
    if c = '(' || c = ')' then none
    else if c = '.' then some .dot
    else some (.lit c)

/-- Case-insensitive single-character match (the `"i"` flag). -/
def tokMatches (t : RTok) (c : Char) : Bool :=
  match t with
  | .dot => true
  | .lit p => p.toLower == c.toLower

/-- Match the whole token sequence at the head of the text. -/
def matchHere : List RTok → List Char → Bool
  | [], _ => true
  | _ :: _, [] => false
  | t :: ts, c :: cs => tokMatches t c && matchHere ts cs

/-- `pattern.test(v)`: the token sequence matches at some position of `v`. -/
def reTest (ts : List RTok) (v : String) : Bool :=
  go ts v.data
where
  go (ts : List RTok) : List Char → Bool
    | [] => matchHere ts []
    | c :: cs => matchHere ts (c :: cs) || go ts cs

/-- JavaScript `String.prototype.trim`: strip leading and trailing
whitespace. -/
def jsWhitespace (c : Char) : Bool :=
  c == ' ' || c == '\t' || c == '\n' || c == '\r'

def jsTrim (s : String) : String :=
  ⟨((s.data.dropWhile jsWhitespace).reverse.dropWhile jsWhitespace).reverse⟩

/-- `checkSearchFilter` (generic.js lines 115-136) on one model's searched
attribute values, with the host RegExp made explicit: a non-empty filter
first builds `RegExp(searchFilter, "i")` — a SyntaxError for an invalid
pattern — and then `_.some`s `pattern.test` over the values; an empty filter
always passes. -/
def checkSearchFilter (searchFilter : String) (values : List String) :
    Except String Bool :=
  if searchFilter.length > 0 then
    if regexValid searchFilter.data then
      .ok (values.any fun v => reTest (lexRegex searchFilter.data) v)
    else
      .error "SyntaxError: invalid regular expression"
  else
    .ok true

/-- `search(value)` (generic.js lines 109-113) followed by the filter
evaluation the triggered `onCollectionSort` performs over the collection
(`self.collection.filter(self.checkFilter, self)`): the value is trimmed into
`searchFilter`, and `checkSearchFilter` runs on each model's searched values;
the first SyntaxError aborts the pass. -/
def searchEval (value : String) (modelValues : List (List String)) :
    Except String (List Bool) :=
  let searchFilter := jsTrim value
  modelValues.mapM (fun vs => checkSearchFilter searchFilter vs)

/-- Plain literal (case-sensitive) substring test, used only to state that
the search is not a literal-substring match. -/
def startsWithChars : List Char → List Char → Bool
  | [], _ => true
  | _ :: _, [] => false
  | p :: ps, c :: cs => (p == c) && startsWithChars ps cs

def hasSubstring (hay pat : List Char) : Bool :=
  match hay with
  | [] => pat.isEmpty
  | _ :: t => startsWithChars pat hay || hasSubstring t pat

/-- The operating invariant of a CollectionView configured with positive
limit `L`: the limit field is untouched, the children count is within the
limit, and the items container mirrors the children exactly when rendered
(and is empty before the first render). -/
def CVInv (L : Nat) (st : CVState) : Prop :=
  st.limit = some L ∧ st.children.length ≤ L
    ∧ st.dom = (if st.rendered then st.children else [])

/-- The view `findViewByModel` effectively selects: the last child whose
model matches (the fold keeps overwriting `result`). -/
def lastMatchView (ch : List View) (m : Model) : Option View :=
  ch.foldl (fun acc v => if viewMatches v m then some v else acc) none

/-- `children[findViewByModel(model)]` as one operation (what
`onCollectionSort` reads after the index lookup). -/
def selView (ch : List View) (m : Model) : Option View :=
  match findViewByModel ch m with
  | none => none
  | some i => some (ch.getD i default)

/-- Well-formedness of Backbone model identities in scope: the client id
determines the model (Backbone assigns each model instance a distinct cid,
so two models with one cid are one model). -/
def CidInj (S : List Model) : Prop :=
  ∀ a ∈ S, ∀ b ∈ S, a.cid = b.cid → a = b

/-- Loop invariant of the `onCollectionSort` walk: the children's models
come from the scope `S`, view cids are below the fresh counter and distinct,
the view is rendered, and the staging fragment holds only current children. -/
structure LoopInv (S : List Model) (st : CVState) (frag : List View) : Prop where
  scope : ∀ v ∈ st.children, v.model ∈ S
  fresh : ∀ v ∈ st.children, v.vcid < st.nextCid
  nodup : (st.children.map View.vcid).Nodup
  rendered : st.rendered = true
  fragSub : ∀ w ∈ frag, w ∈ st.children

/-- The state as Backbone actually holds it: the children array is created
only by the first `View.add` (part_003 lines 175-178), so before that it is
`undefined` — `none` here.  `CVState` is the view of this state once the
array exists. -/
structure CVStateRaw where
  children : Option (List View)
  collection : List Model
  limit : Option Nat
  rendered : Bool
  dom : List View
  nextCid : Nat
deriving DecidableEq, Repr

/-- `addItemView` on the raw state.  With `children` still undefined, the
`_.each` inside `findViewByModel` iterates nothing (result stays -1) and the
`self.children !== undefined && ...` half of the limit guard is false, so
only the filter decides; a successful add goes through `View.add`, which
creates the array.  Once the array exists this is `addItemView`. -/
def addItemViewRaw (f : Model → Bool) (st : CVStateRaw) (m : Model) :
    CVStateRaw :=
  match st.children with
  | some ch =>
    let res := (addItemView f
      ⟨ch, st.collection, st.limit, st.rendered, st.dom, st.nextCid⟩ m none).1
    ⟨some res.children, res.collection, res.limit, res.rendered, res.dom,
      res.nextCid⟩
  | none =>
    if !(f m) then st
    else
      { st with children := some [⟨st.nextCid, m⟩],
                nextCid := st.nextCid + 1,
                dom := if st.rendered then st.dom ++ [⟨st.nextCid, m⟩]
                       else st.dom }

/-- `removeItemView` on the raw state.  `_(undefined).find` yields a
harmless undefined so no removal happens, but generic.js line 158 then reads
`self.children.length` unconditionally for the backfill, which throws a
TypeError when the children array was never created.  Once the array exists
this is `removeItemView`, which runs to completion. -/
def removeItemViewRaw (f : Model → Bool) (st : CVStateRaw) (m : Model) :
    Except String CVStateRaw :=
  match st.children with
  | none => .error "TypeError: self.children is undefined"
  | some ch =>
    let res := removeItemView f
      ⟨ch, st.collection, st.limit, st.rendered, st.dom, st.nextCid⟩ m
    .ok ⟨some res.children, res.collection, res.limit, res.rendered, res.dom,
      res.nextCid⟩

/-- `CollectionView.initialize` on the raw state: `addItemViewRaw` over the
collection, starting with the children array not yet created. -/
def initCollectionViewRaw (f : Model → Bool) (models : List Model)
    (limit : Option Nat) (startCid : Nat) : CVStateRaw :=
  models.foldl (addItemViewRaw f) ⟨none, models, limit, false, [], startCid⟩

section Sanity

/- The C3 concrete scenario, exercised on small inputs. -/

def mA : Model := ⟨0, none⟩
def mB : Model := ⟨1, none⟩
def mC : Model := ⟨2, none⟩

example :
    (renderCV (initCollectionView (fun _ => true) [mA, mB, mC] (some 2) 0)).children.map
      (fun v => v.model) = [mA, mB] := by decide

example :
    (step (fun _ => true)
      (renderCV (initCollectionView (fun _ => true) [mA, mB, mC] (some 2) 0))
      (.remove mB)).children.map (fun v => v.model) = [mA, mC] := by decide

-- onCollectionSort: limit 2 over three eligible models shows the first two
example :
    (onCollectionSort (fun _ => true)
      (renderCV (initCollectionView (fun _ => true) [mA, mB, mC] (some 2) 0))).dom.map
        (fun v => v.model) = [mA, mB] := by decide

-- toggleShowAll on then off: 3 visible, then back to 2
example :
    ((toggleShowAll (fun _ => true)
      ⟨renderCV (initCollectionView (fun _ => true) [mA, mB, mC] (some 2) 0),
        false, none⟩).cv.dom.length = 3) := by decide

example :
    ((toggleShowAll (fun _ => true) (toggleShowAll (fun _ => true)
      ⟨renderCV (initCollectionView (fun _ => true) [mA, mB, mC] (some 2) 0),
        false, none⟩)).cv.dom.length = 2) := by decide

-- header clicks
example :
    (sortClick ⟨[⟨"Name", .unsorted⟩, ⟨"Status", .unsorted⟩], 3, []⟩ "Name").calls
      = [("name", "asc")] := by decide

example :
    (sortClick (sortClick ⟨[⟨"Name", .unsorted⟩, ⟨"Status", .unsorted⟩], 3, []⟩
      "Name") "Name").calls = [("name", "asc"), ("name", "desc")] := by decide

-- destroy leaves the child registered and marks the parent first
example : (destroyNode (.mk 0 false [.mk 1 false []])).children.length = 1 := by
  simp [destroyNode, destroyList, VNode.children]
example : destroyTrace (.mk 0 false [.mk 1 false []]) = [0, 1] := by
  simp [destroyTrace, destroyTraceList]

-- registry gets confused after a removal
example :
    (registryGet (registryRemove (registryAdd (registryAdd ⟨[], []⟩ ⟨0, "a"⟩)
      ⟨1, "b"⟩) ⟨0, "a"⟩) "b") = none := by decide
example :
    (registryGet (registryRemove (registryAdd (registryAdd ⟨[], []⟩ ⟨0, "a"⟩)
      ⟨1, "b"⟩) ⟨0, "a"⟩) "a") = some ⟨1, "b"⟩ := by decide

-- search: "(" is a SyntaxError; "a.c" matches "zaxc" non-literally
example : searchEval "(" [["x"]] = .error "SyntaxError: invalid regular expression" :=
  rfl
example : checkSearchFilter "a.c" ["zaxc"] = .ok true := rfl
example : hasSubstring "zaxc".data "a.c".data = false := by decide

end Sanity

/-! ## Lemma kit for `findViewByModel` -/

/-- The index counter of `findViewByModel`'s fold advances by the list
length. -/
theorem findAux_snd (l : List View) (m : Model) (a : Option Nat) (k : Nat) :
    (l.foldl
      (fun (acc : Option Nat × Nat) v =>
        (if viewMatches v m then some acc.2 else acc.1, acc.2 + 1)) (a, k)).2
      = k + l.length := by
  induction l generalizing a k with
  | nil => simp
  | cons v l ih =>
    simp only [List.foldl_cons, List.length_cons]
    rw [ih]
    omega

theorem findVBM_snoc (l : List View) (v : View) (m : Model) :
    findViewByModel (l ++ [v]) m
      = if viewMatches v m then some l.length else findViewByModel l m := by
  unfold findViewByModel
  rw [List.foldl_append]
  rcases h : l.foldl
      (fun (acc : Option Nat × Nat) w =>
        (if viewMatches w m then some acc.2 else acc.1, acc.2 + 1)) (none, 0) with ⟨a, k⟩
  have hk : k = l.length := by
    have := findAux_snd l m none 0
    rw [h] at this
    simpa using this
  simp [hk]

theorem findVBM_none_iff (l : List View) (m : Model) :
    findViewByModel l m = none ↔ ∀ v ∈ l, viewMatches v m = false := by
  induction l using List.reverseRecOn with
  | nil => simp [findViewByModel]
  | append_singleton l v ih =>
    rw [findVBM_snoc]
    cases hv : viewMatches v m with
    | true =>
      simp only [if_true]
      constructor
      · intro h
        exact absurd h (by simp)
      · intro h
        exact absurd (h v (by simp)) (by simp [hv])
    | false =>
      simp only [Bool.false_eq_true, if_false]
      rw [ih]
      constructor
      · intro h w hw
        rcases List.mem_append.1 hw with hw | hw
        · exact h w hw
        · simp only [List.mem_singleton] at hw
          subst hw
          exact hv
      · intro h w hw
        exact h w (List.mem_append.2 (Or.inl hw))

theorem findVBM_lt (l : List View) (m : Model) (i : Nat)
    (h : findViewByModel l m = some i) : i < l.length := by
  induction l using List.reverseRecOn generalizing i with
  | nil => simp [findViewByModel] at h
  | append_singleton l v ih =>
    rw [findVBM_snoc] at h
    cases hv : viewMatches v m with
    | true =>
      rw [hv] at h
      simp only [if_true] at h
      cases h
      simp
    | false =>
      rw [hv] at h
      simp only [Bool.false_eq_true, if_false] at h
      have := ih _ h
      simp only [List.length_append, List.length_singleton]
      omega

/-! ## C6: ViewNode destroy cascade -/

/-- C6.  The claim reads: after `destroy()` returns the node has no children,
the destruction having cascaded depth-first through all children before the
node itself is marked destroyed, with a destroy notification letting parents
self-prune.  The code violates it at the concrete input (parent cid 0 with
one child cid 1): `destroy` sets its own `destroyed` flag before iterating
the children (trace `[0, 1]`, parent first), and the child — though
destroyed — stays in the parent's `children`, because `add` registered the
`"destroy"` handler on the global `self` instead of `this`, so
`onChildViewDestroyed` never prunes, and `destroy` itself never clears the
list. -/
theorem destroyNode_keeps_children_and_marks_parent_first :
    (destroyNode (.mk 0 false [.mk 1 false []])).children
        = [.mk 1 true []]
      ∧ (destroyNode (.mk 0 false [.mk 1 false []])).children.length = 1
      ∧ destroyTrace (.mk 0 false [.mk 1 false []]) = [0, 1] := by
  refine ⟨?_, ?_, ?_⟩ <;>
    simp [destroyNode, destroyList, destroyTrace, destroyTraceList, VNode.children]

/-! ## C7: child registry lookup after removals -/

/-- C7.  The claim reads: after any sequence of `add`/`remove`, `get(id)`
returns the child most recently registered under `id` if still registered,
and none otherwise.  The code violates it at the concrete input
add ⟨cid 0, "a"⟩; add ⟨cid 1, "b"⟩; remove ⟨cid 0, "a"⟩: child "b" is still
registered (it is the whole `children` array) yet `get "b"` returns none,
and `get "a"` returns the "b" child even though "a" was removed —
`remove` rebuilds `children` without touching `childrenMap`, so the stored
indices point at the wrong slots. -/
theorem registryGet_stale_after_remove :
    (registryRemove (registryAdd (registryAdd ⟨[], []⟩ ⟨0, "a"⟩) ⟨1, "b"⟩)
        ⟨0, "a"⟩).children = [⟨1, "b"⟩]
      ∧ registryGet (registryRemove (registryAdd (registryAdd ⟨[], []⟩ ⟨0, "a"⟩)
          ⟨1, "b"⟩) ⟨0, "a"⟩) "b" = none
      ∧ registryGet (registryRemove (registryAdd (registryAdd ⟨[], []⟩ ⟨0, "a"⟩)
          ⟨1, "b"⟩) ⟨0, "a"⟩) "a" = some ⟨1, "b"⟩ := by
  refine ⟨?_, ?_, ?_⟩ <;> decide

/-! ## C10: the search filter is a RegExp, not a literal substring -/

/-- C10.  A non-empty search string is evaluated by compiling
`RegExp(searchFilter, "i")` rather than by literal substring matching: the
invalid pattern `"("` makes every (non-vacuous) triggered reconciliation
pass raise a SyntaxError instead of completing, while the valid pattern
`"a.c"` matches the value `"zaxc"` even though it does not occur in it as a
literal substring. -/
theorem searchFilter_regexp_error_on_invalid_pattern :
    (∀ vs : List (List String), vs ≠ [] →
        searchEval "(" vs = .error "SyntaxError: invalid regular expression")
      ∧ checkSearchFilter "a.c" ["zaxc"] = .ok true
      ∧ hasSubstring "zaxc".data "a.c".data = false := by
  refine ⟨?_, rfl, by decide⟩
  intro vs hvs
  match vs with
  | v :: rest => rfl

/-- Witness for C10 at the concrete collection `[["x"]]`. -/
theorem searchFilter_regexp_error_witness :
    ([["x"]] : List (List String)) ≠ []
      ∧ searchEval "(" [["x"]] = .error "SyntaxError: invalid regular expression" :=
  ⟨by simp, searchFilter_regexp_error_on_invalid_pattern.1 [["x"]] (by simp)⟩

/-! ## Shared lemmas about `addItemView` and backfill -/

/-- A duplicate add is a strict no-op: when `findViewByModel` finds an
existing view, `addItemView` changes nothing. -/
theorem addItemView_of_found (f : Model → Bool) (st : CVState) (m : Model)
    (c : Option (List View)) (i : Nat)
    (h : findViewByModel st.children m = some i) :
    addItemView f st m c = (st, c) := by
  unfold addItemView
  rw [h]

/-- `addItemView` is a no-op when the filter rejects the model. -/
theorem addItemView_of_filtered (f : Model → Bool) (st : CVState) (m : Model)
    (c : Option (List View)) (h : f m = false) :
    addItemView f st m c = (st, c) := by
  unfold addItemView
  cases hfind : findViewByModel st.children m with
  | some i => rfl
  | none => simp [h]

/-- `addItemView` is a no-op when the children count has reached the
effective limit. -/
theorem addItemView_of_full (f : Model → Bool) (st : CVState) (m : Model)
    (c : Option (List View))
    (h : effLimit st.limit st.collection.length ≤ st.children.length) :
    addItemView f st m c = (st, c) := by
  unfold addItemView
  cases hfind : findViewByModel st.children m with
  | some i => rfl
  | none => simp [h]

/-- When no view matches, the limit has slack and the filter passes,
`addItemView` appends exactly one fresh view for the model. -/
theorem addItemView_success (f : Model → Bool) (st : CVState) (m : Model)
    (c : Option (List View))
    (hfind : findViewByModel st.children m = none)
    (hlen : st.children.length < effLimit st.limit st.collection.length)
    (hf : f m = true) :
    (addItemView f st m c).1
      = { st with children := st.children ++ [⟨st.nextCid, m⟩],
                  nextCid := st.nextCid + 1,
                  dom := if st.rendered ∧ c = none then st.dom ++ [⟨st.nextCid, m⟩]
                         else st.dom } := by
  unfold addItemView
  rw [hfind]
  have hguard : (decide (st.children.length ≥ effLimit st.limit st.collection.length)
      || !(f m)) = false := by
    simp [hf]
    omega
  simp only [ge_iff_le, hguard, Bool.false_eq_true, if_false]
  cases hr : st.rendered with
  | true =>
    cases c with
    | none => simp [hr]
    | some frag => simp [hr]
  | false => simp [hr]

/-- Folding `addItemView` over models that are all either already-viewed or
filtered out leaves the state unchanged. -/
theorem foldl_addItemView_noop (f : Model → Bool) (st : CVState)
    (ms : List Model)
    (h : ∀ m' ∈ ms, (∃ j, findViewByModel st.children m' = some j) ∨ f m' = false) :
    ms.foldl (fun acc mm => (addItemView f acc mm none).1) st = st := by
  induction ms with
  | nil => rfl
  | cons m' ms ih =>
    have hstep : (addItemView f st m' none).1 = st := by
      rcases h m' (by simp) with ⟨j, hj⟩ | hf
      · rw [addItemView_of_found f st m' none j hj]
      · rw [addItemView_of_filtered f st m' none hf]
    simp only [List.foldl_cons, hstep]
    exact ih (fun m'' hm => h m'' (by simp [hm]))

/-- Removing one occurrence by view cid from a cid-distinct children list
drops the length by exactly one. -/
theorem filter_out_view_length (children : List View) (v0 : View)
    (hmem : v0 ∈ children) (hnodup : (children.map View.vcid).Nodup) :
    (children.filter (fun w => !(w.vcid == v0.vcid))).length
      = children.length - 1 := by
  have hcount : children.countP (fun w => w.vcid == v0.vcid) = 1 := by
    have h1 : (children.map View.vcid).count v0.vcid = 1 :=
      List.count_eq_one_of_mem hnodup (List.mem_map_of_mem View.vcid hmem)
    rw [List.count, List.countP_map] at h1
    exact h1
  have hsplit := List.length_eq_countP_add_countP
    (fun w => w.vcid == v0.vcid) children
  rw [← List.countP_eq_length_filter]
  have hsame : children.countP (fun w => !(w.vcid == v0.vcid))
      = children.countP (fun a => decide ¬(a.vcid == v0.vcid) = true) := by
    apply List.countP_congr
    intro w _
    cases h : w.vcid == v0.vcid <;> simp [h]
  rw [hsame]
  omega

/-- `effLimit` of a configured positive limit is that limit. -/
theorem effLimit_of_pos (L : Nat) (hL : 0 < L) (n : Nat) :
    effLimit (some L) n = L := by
  unfold effLimit
  simp [Nat.pos_iff_ne_zero.1 hL]

/-! ## C5: duplicate add and unmatched remove -/

/-- C5 counterexample.  The claim reads: a remove notification for a model
with no matching visible child leaves the visible child list exactly as it
was.  Concretely: CollectionView over [A,B,C] with limit 1 and a filter that
rejects B; after initialization the children are [viewA]; removing A empties
them (B, the only backfill candidate, is filtered); then the remove
notification for B — which has no matching child — makes the handler's
backfill step add a view for C: the child list grows from [] to one view,
so the handler is not a no-op. -/
theorem removeItemView_unmatched_not_noop :
    (step (fun m => !(m.cid == 1))
        (renderCV (initCollectionView (fun m => !(m.cid == 1)) [mA, mB, mC]
          (some 1) 0)) (.remove mA)).children = []
    ∧ ((step (fun m => !(m.cid == 1))
        (renderCV (initCollectionView (fun m => !(m.cid == 1)) [mA, mB, mC]
          (some 1) 0)) (.remove mA)).children.find?
            (fun v => v.model.cid == mB.cid)) = none
    ∧ (step (fun m => !(m.cid == 1))
        (step (fun m => !(m.cid == 1))
          (renderCV (initCollectionView (fun m => !(m.cid == 1)) [mA, mB, mC]
            (some 1) 0)) (.remove mA)) (.remove mB)).children.length = 1 := by
  refine ⟨?_, ?_, ?_⟩ <;> decide

/-- A children array that was never created stays uncreated while every
arriving model is rejected by the filter: `addItemView` returns before
`View.add`. -/
theorem foldl_addItemViewRaw_filtered (f : Model → Bool) (ms : List Model) :
    ∀ (st : CVStateRaw), st.children = none → (∀ mm ∈ ms, f mm = false) →
    (ms.foldl (addItemViewRaw f) st).children = none := by
  induction ms with
  | nil => intro st h _; exact h
  | cons m ms ih =>
    intro st h hall
    have hstep : addItemViewRaw f st m = st := by
      unfold addItemViewRaw
      rw [h, hall m (by simp)]
      rfl
    simp only [List.foldl_cons, hstep]
    exact ih st h (fun mm hm => hall mm (by simp [hm]))

/-- C5 amended.  Adding a model that already has a visible child is a strict
no-op (state and container are returned untouched).  Removing a model with no
matching visible child performs no removal, but the handler still runs its
backfill step; once the children array exists, the handler returns without
error, and the child list is unchanged provided no backfill candidate is
added — that is, when the children count has already reached the effective
limit, or every model in the backfill window `collection.slice(children.length,
limit)` is already viewed or rejected by the filter.  (Without that proviso
the handler may add views, as the counterexample shows.)  When the children
array was never created — reachable by construction over a collection whose
models are all rejected by the filter — the remove handler instead throws a
TypeError at the backfill's read of `self.children.length`. -/
theorem addRemove_duplicate_noop (f : Model → Bool) (st : CVState) (m : Model) :
    (∀ (c : Option (List View)) (i : Nat),
        findViewByModel st.children m = some i → addItemView f st m c = (st, c))
    ∧ (st.children.find? (fun v => v.model.cid == m.cid) = none →
        (effLimit st.limit st.collection.length ≤ st.children.length ∨
          ∀ m' ∈ (st.collection.drop st.children.length).take
              (effLimit st.limit st.collection.length - st.children.length),
            (∃ j, findViewByModel st.children m' = some j) ∨ f m' = false) →
        removeItemView f st m = st)
    ∧ (∀ (raw : CVStateRaw), raw.children = none →
        removeItemViewRaw f raw m
          = .error "TypeError: self.children is undefined")
    ∧ (∀ (models : List Model) (lim : Option Nat) (k : Nat),
        (∀ mm ∈ models, f mm = false) →
        (initCollectionViewRaw f models lim k).children = none) := by
  refine ⟨?_, ?_, ?_, ?_⟩
  · intro c i h
    exact addItemView_of_found f st m c i h
  · intro hfind hside
    unfold removeItemView
    rw [hfind]
    rcases hside with hfull | hcands
    · have hdiff : effLimit st.limit st.collection.length - st.children.length = 0 := by
        omega
      simp [hdiff]
    · by_cases hd :
        0 < effLimit st.limit st.collection.length - st.children.length
      · simp only [hd, gt_iff_lt, if_pos]
        exact foldl_addItemView_noop f st _ (fun m' hm => hcands m' hm)
      · simp only [gt_iff_lt, if_neg hd]
  · intro raw h
    unfold removeItemViewRaw
    rw [h]
  · intro models lim k hall
    exact foldl_addItemViewRaw_filtered f models _ rfl hall

/-- Witness for C5 amended: a duplicate add of A over [viewA] is a no-op;
removing the absent C from a full one-child view with limit 1 is a no-op;
and on a view constructed over [B] with a filter rejecting B — so the
children array was never created — the remove notification for B throws. -/
theorem addRemove_duplicate_noop_witness :
    (addItemView (fun _ => true)
        (renderCV (initCollectionView (fun _ => true) [mA] (some 1) 0)) mA none
      = (renderCV (initCollectionView (fun _ => true) [mA] (some 1) 0), none))
    ∧ (removeItemView (fun _ => true)
        (renderCV (initCollectionView (fun _ => true) [mA] (some 1) 0)) mC
      = renderCV (initCollectionView (fun _ => true) [mA] (some 1) 0))
    ∧ (initCollectionViewRaw (fun mm => !(mm.cid == 1)) [mB] (some 5) 0).children
        = none
    ∧ removeItemViewRaw (fun mm => !(mm.cid == 1))
        (initCollectionViewRaw (fun mm => !(mm.cid == 1)) [mB] (some 5) 0) mB
      = .error "TypeError: self.children is undefined" :=
  ⟨(addRemove_duplicate_noop (fun _ => true)
      (renderCV (initCollectionView (fun _ => true) [mA] (some 1) 0)) mA).1
      none 0 (by decide),
    (addRemove_duplicate_noop (fun _ => true)
      (renderCV (initCollectionView (fun _ => true) [mA] (some 1) 0)) mC).2.1
      (by decide) (Or.inl (by decide)),
    (addRemove_duplicate_noop (fun mm => !(mm.cid == 1))
      (renderCV (initCollectionView (fun _ => true) [mA] (some 1) 0)) mB).2.2.2
      [mB] (some 5) 0 (by decide),
    (addRemove_duplicate_noop (fun mm => !(mm.cid == 1))
      (renderCV (initCollectionView (fun _ => true) [mA] (some 1) 0)) mB).2.2.1
      (initCollectionViewRaw (fun mm => !(mm.cid == 1)) [mB] (some 5) 0)
      (by decide)⟩

/-! ## C1: the limit bounds the visible children -/

theorem addItemView_CVInv (f : Model → Bool) (L : Nat) (hL : 0 < L)
    (st : CVState) (m : Model) (h : CVInv L st) :
    CVInv L (addItemView f st m none).1 := by
  obtain ⟨hlim, hlen, hdom⟩ := h
  cases hfind : findViewByModel st.children m with
  | some i => rw [addItemView_of_found f st m none i hfind]; exact ⟨hlim, hlen, hdom⟩
  | none =>
    have heff : effLimit st.limit st.collection.length = L := by
      rw [hlim, effLimit_of_pos L hL]
    by_cases hfull : effLimit st.limit st.collection.length ≤ st.children.length
    · rw [addItemView_of_full f st m none hfull]
      exact ⟨hlim, hlen, hdom⟩
    · cases hf : f m with
      | false =>
        rw [addItemView_of_filtered f st m none hf]
        exact ⟨hlim, hlen, hdom⟩
      | true =>
        rw [addItemView_success f st m none hfind (by omega) hf]
        refine ⟨hlim, by simp; omega, ?_⟩
        cases hr : st.rendered with
        | true => simp [hr] at hdom ⊢; rw [hdom]
        | false => simp [hr] at hdom ⊢; exact hdom

theorem foldl_addItemView_CVInv (f : Model → Bool) (L : Nat) (hL : 0 < L)
    (st : CVState) (ms : List Model) (h : CVInv L st) :
    CVInv L (ms.foldl (fun acc mm => (addItemView f acc mm none).1) st) := by
  induction ms generalizing st with
  | nil => exact h
  | cons m ms ih =>
    exact ih _ (addItemView_CVInv f L hL st m h)

theorem removeItemView_CVInv (f : Model → Bool) (L : Nat) (hL : 0 < L)
    (st : CVState) (m : Model) (h : CVInv L st) :
    CVInv L (removeItemView f st m) := by
  obtain ⟨hlim, hlen, hdom⟩ := h
  unfold removeItemView
  cases hfind : st.children.find? (fun v => v.model.cid == m.cid) with
  | none =>
    by_cases hd : 0 < effLimit st.limit st.collection.length - st.children.length
    · simp only [hd, gt_iff_lt, if_pos]
      exact foldl_addItemView_CVInv f L hL _ _ ⟨hlim, hlen, hdom⟩
    · simp only [gt_iff_lt, if_neg hd]
      exact ⟨hlim, hlen, hdom⟩
  | some v0 =>
    have h1 : CVInv L
        { st with
          children := st.children.filter (fun w => !(w.vcid == v0.vcid)),
          dom := if st.rendered then
                   st.dom.filter (fun w => !(w.vcid == v0.vcid))
                 else st.dom } := by
      refine ⟨hlim, le_trans (List.length_filter_le _ _) hlen, ?_⟩
      cases hr : st.rendered with
      | true => simp [hr] at hdom ⊢; rw [hdom]
      | false => simp [hr] at hdom ⊢; exact hdom
    by_cases hd : 0 < effLimit st.limit st.collection.length -
        (st.children.filter (fun w => !(w.vcid == v0.vcid))).length
    · simp only [hd, gt_iff_lt, if_pos]
      exact foldl_addItemView_CVInv f L hL _ _ h1
    · simp only [gt_iff_lt, if_neg hd]
      exact h1

theorem step_CVInv (f : Model → Bool) (L : Nat) (hL : 0 < L)
    (st : CVState) (e : CEvent) (h : CVInv L st) :
    CVInv L (step f st e) := by
  obtain ⟨hlim, hlen, hdom⟩ := h
  cases e with
  | add pos m =>
    exact addItemView_CVInv f L hL _ m ⟨hlim, hlen, hdom⟩
  | remove m =>
    exact removeItemView_CVInv f L hL _ m ⟨hlim, hlen, hdom⟩

theorem foldl_step_CVInv (f : Model → Bool) (L : Nat) (hL : 0 < L)
    (st : CVState) (events : List CEvent) (h : CVInv L st) :
    CVInv L (events.foldl (step f) st) := by
  induction events generalizing st with
  | nil => exact h
  | cons e es ih => exact ih _ (step_CVInv f L hL st e h)

theorem initCollectionView_CVInv (f : Model → Bool) (L : Nat) (hL : 0 < L)
    (models : List Model) (startCid : Nat) :
    CVInv L (initCollectionView f models (some L) startCid) := by
  unfold initCollectionView
  exact foldl_addItemView_CVInv f L hL _ models ⟨rfl, by simp, by simp⟩

theorem renderCV_CVInv (L : Nat) (st : CVState) (h : CVInv L st) :
    CVInv L (renderCV st) := by
  obtain ⟨hlim, hlen, hdom⟩ := h
  refine ⟨hlim, hlen, ?_⟩
  unfold renderCV
  simp only [if_true]
  cases hr : st.rendered with
  | false =>
    simp [hr] at hdom
    simp [hdom]
  | true =>
    simp [hr] at hdom
    rw [hdom]
    have : st.children.filter
        (fun w => !(st.children.any (fun v => v.vcid == w.vcid))) = [] := by
      rw [List.filter_eq_nil_iff]
      intro w hw
      simp only [Bool.not_eq_true', Bool.not_eq_false]
      exact List.any_eq_true.2 ⟨w, hw, by simp⟩
    rw [this, List.nil_append]

/-- C1.  For every CollectionView constructed with a configured (positive)
integer limit over any collection and filter, and every sequence of add and
remove notifications delivered from the Collection, at every point of the
sequence the number of child views — and the number of their elements in the
items container — never exceeds the limit. -/
theorem children_length_le_limit (f : Model → Bool) (L : Nat)
    (models : List Model) (events : List CEvent) (hL : 0 < L) (k : Nat) :
    ((events.take k).foldl (step f)
        (renderCV (initCollectionView f models (some L) 0))).children.length ≤ L
    ∧ ((events.take k).foldl (step f)
        (renderCV (initCollectionView f models (some L) 0))).dom.length ≤ L := by
  have h := foldl_step_CVInv f L hL _ (events.take k)
    (renderCV_CVInv L _ (initCollectionView_CVInv f L hL models 0))
  obtain ⟨hlim, hlen, hdom⟩ := h
  refine ⟨hlen, ?_⟩
  rw [hdom]
  cases ((events.take k).foldl (step f)
      (renderCV (initCollectionView f models (some L) 0))).rendered with
  | true => simpa using hlen
  | false => simp

/-- Witness for C1: limit 1 over [A,B] with one remove delivered. -/
theorem children_length_le_limit_witness :
    0 < 1
    ∧ (([CEvent.remove mA].take 1).foldl (step (fun _ => true))
        (renderCV (initCollectionView (fun _ => true) [mA, mB] (some 1) 0))).children.length ≤ 1
    ∧ (([CEvent.remove mA].take 1).foldl (step (fun _ => true))
        (renderCV (initCollectionView (fun _ => true) [mA, mB] (some 1) 0))).dom.length ≤ 1 :=
  ⟨by decide,
    children_length_le_limit (fun _ => true) 1 [mA, mB] [CEvent.remove mA]
      (by decide) 1⟩

/-! ## C2: at most one visible child per model identity -/

theorem modelMatches_refl (m : Model) : modelMatches m m = true := by
  simp [modelMatches]

theorem addItemView_pairwise (f : Model → Bool) (st : CVState) (m : Model)
    (c : Option (List View))
    (h : st.children.Pairwise (fun v w => modelMatches v.model w.model = false)) :
    (addItemView f st m c).1.children.Pairwise
      (fun v w => modelMatches v.model w.model = false) := by
  cases hfind : findViewByModel st.children m with
  | some i => rw [addItemView_of_found f st m c i hfind]; exact h
  | none =>
    by_cases hfull : effLimit st.limit st.collection.length ≤ st.children.length
    · rw [addItemView_of_full f st m c hfull]; exact h
    · cases hf : f m with
      | false => rw [addItemView_of_filtered f st m c hf]; exact h
      | true =>
        rw [addItemView_success f st m c hfind (by omega) hf]
        simp only []
        rw [List.pairwise_append]
        refine ⟨h, by simp, ?_⟩
        intro a ha b hb
        simp only [List.mem_singleton] at hb
        subst hb
        have := (findVBM_none_iff st.children m).1 hfind a ha
        simpa [viewMatches] using this

theorem foldl_addItemView_pairwise (f : Model → Bool) (st : CVState)
    (ms : List Model)
    (h : st.children.Pairwise (fun v w => modelMatches v.model w.model = false)) :
    (ms.foldl (fun acc mm => (addItemView f acc mm none).1) st).children.Pairwise
      (fun v w => modelMatches v.model w.model = false) := by
  induction ms generalizing st with
  | nil => exact h
  | cons m ms ih => exact ih _ (addItemView_pairwise f st m none h)

theorem removeItemView_pairwise (f : Model → Bool) (st : CVState) (m : Model)
    (h : st.children.Pairwise (fun v w => modelMatches v.model w.model = false)) :
    (removeItemView f st m).children.Pairwise
      (fun v w => modelMatches v.model w.model = false) := by
  unfold removeItemView
  cases hfind : st.children.find? (fun v => v.model.cid == m.cid) with
  | none =>
    by_cases hd : 0 < effLimit st.limit st.collection.length - st.children.length
    · simp only [hd, gt_iff_lt, if_pos]
      exact foldl_addItemView_pairwise f _ _ h
    · simp only [gt_iff_lt, if_neg hd]
      exact h
  | some v0 =>
    have h1 : (st.children.filter (fun w => !(w.vcid == v0.vcid))).Pairwise
        (fun v w => modelMatches v.model w.model = false) :=
      List.Pairwise.sublist (List.filter_sublist _) h
    by_cases hd : 0 < effLimit st.limit st.collection.length -
        (st.children.filter (fun w => !(w.vcid == v0.vcid))).length
    · simp only [hd, gt_iff_lt, if_pos]
      exact foldl_addItemView_pairwise f _ _ h1
    · simp only [gt_iff_lt, if_neg hd]
      exact h1

theorem step_pairwise (f : Model → Bool) (st : CVState) (e : CEvent)
    (h : st.children.Pairwise (fun v w => modelMatches v.model w.model = false)) :
    (step f st e).children.Pairwise
      (fun v w => modelMatches v.model w.model = false) := by
  cases e with
  | add pos m => exact addItemView_pairwise f _ m none h
  | remove m => exact removeItemView_pairwise f _ m h

/-- C2.  At any point of any notification sequence delivered to a freshly
constructed CollectionView, no two child views reference models with the
same identity (their models never match under `findViewByModel`'s test);
and, at the handler level, delivering an add for a model with the same
identity a second time is detected by `findViewByModel` and skipped, leaving
exactly one child for that identity whenever the first add created one. -/
theorem unique_child_per_identity (f : Model → Bool) :
    (∀ (limit : Option Nat) (models : List Model) (events : List CEvent) (k : Nat),
        ((events.take k).foldl (step f)
          (renderCV (initCollectionView f models limit 0))).children.Pairwise
            (fun v w => modelMatches v.model w.model = false))
    ∧ (∀ (st : CVState) (m : Model) (c c' : Option (List View)),
        findViewByModel st.children m = none → f m = true →
        st.children.length < effLimit st.limit st.collection.length →
        addItemView f (addItemView f st m c).1 m c' = ((addItemView f st m c).1, c')
        ∧ (addItemView f st m c).1.children.countP
            (fun v => viewMatches v m) = 1) := by
  constructor
  · intro limit models events k
    have hinit : (initCollectionView f models limit 0).children.Pairwise
        (fun v w => modelMatches v.model w.model = false) := by
      unfold initCollectionView
      exact foldl_addItemView_pairwise f _ models (by simp)
    have hrender : (renderCV (initCollectionView f models limit 0)).children.Pairwise
        (fun v w => modelMatches v.model w.model = false) := hinit
    generalize hst : renderCV (initCollectionView f models limit 0) = st at hrender ⊢
    clear hst hinit
    induction (events.take k) generalizing st with
    | nil => exact hrender
    | cons e es ih => exact ih _ (step_pairwise f st e hrender)
  · intro st m c c' hfind hf hlen
    have hsucc := addItemView_success f st m c hfind hlen hf
    have hch : (addItemView f st m c).1.children
        = st.children ++ [⟨st.nextCid, m⟩] := by rw [hsucc]
    have hfound : findViewByModel (addItemView f st m c).1.children m
        = some st.children.length := by
      rw [hch, findVBM_snoc]
      simp [viewMatches, modelMatches_refl]
    constructor
    · exact addItemView_of_found f _ m c' _ hfound
    · rw [hch, List.countP_append]
      have h0 : st.children.countP (fun v => viewMatches v m) = 0 :=
        List.countP_eq_zero.2 (by
          intro a ha
          simp [(findVBM_none_iff st.children m).1 hfind a ha])
      rw [h0]
      simp [viewMatches, modelMatches_refl]

/-- Witness for C2: a duplicate add event over [A] keeps the children
pairwise-distinct, and the handler-level double add over an empty view with
collection [A] is skipped the second time with exactly one child for A. -/
theorem unique_child_per_identity_witness :
    (([CEvent.add 1 mA].take 1).foldl (step (fun _ => true))
        (renderCV (initCollectionView (fun _ => true) [mA] none 0))).children.Pairwise
          (fun v w => modelMatches v.model w.model = false)
    ∧ (addItemView (fun _ => true)
          (addItemView (fun _ => true) ⟨[], [mA], none, false, [], 0⟩ mA none).1
          mA none
        = ((addItemView (fun _ => true) ⟨[], [mA], none, false, [], 0⟩ mA none).1,
            none)
        ∧ (addItemView (fun _ => true) ⟨[], [mA], none, false, [], 0⟩ mA
            none).1.children.countP (fun v => viewMatches v mA) = 1) :=
  ⟨(unique_child_per_identity (fun _ => true)).1 none [mA] [CEvent.add 1 mA] 1,
    (unique_child_per_identity (fun _ => true)).2 ⟨[], [mA], none, false, [], 0⟩
      mA none none (by decide) rfl (by decide)⟩

/-! ## C3: backfill on removal -/

/-- C3 counterexample.  The claim reads: limit = N, a Collection with at
least N+1 filter-eligible models and exactly N visible children; removing
one visible model yields exactly N visible children again.  It fails at the
concrete input N = 1, Collection = [A,B,C], filter rejecting B: the view
starts with the 1 = N visible child [viewA] while 2 = N+1 models (A and C)
are eligible, yet removing the visible A leaves 0 ≠ N children — the
backfill window `slice(0, 1)` of the post-removal collection holds only the
filtered-out B, so no view is pulled in even though C is eligible further
on. -/
theorem backfill_fails_under_filter :
    (renderCV (initCollectionView (fun m => !(m.cid == 1)) [mA, mB, mC]
        (some 1) 0)).limit = some 1
    ∧ (renderCV (initCollectionView (fun m => !(m.cid == 1)) [mA, mB, mC]
        (some 1) 0)).children.length = 1
    ∧ ((renderCV (initCollectionView (fun m => !(m.cid == 1)) [mA, mB, mC]
        (some 1) 0)).collection.filter (fun m => !(m.cid == 1))).length = 2
    ∧ (∃ v ∈ (renderCV (initCollectionView (fun m => !(m.cid == 1)) [mA, mB, mC]
        (some 1) 0)).children, v.model.cid = mA.cid)
    ∧ (step (fun m => !(m.cid == 1))
        (renderCV (initCollectionView (fun m => !(m.cid == 1)) [mA, mB, mC]
          (some 1) 0)) (.remove mA)).children.length = 0 := by
  refine ⟨?_, ?_, ?_, ?_, ?_⟩ <;> decide

/-- C3 amended.  With limit L and exactly L visible children, removing a
visible model backfills only from the collection positions
`[children.length, limit)` of the post-removal collection: when the model
`c` at position L-1 there passes the filter and is not already viewed,
exactly L children result, the backfilled one being a fresh view for `c`
(so, in the concrete instance [A,B,C] with limit 2 and an always-true
filter, removing B leaves views for [A, C]).  Without the eligibility
proviso on the window the count can stay below L, as the counterexample
shows. -/
theorem removeItemView_backfills_window (f : Model → Bool) (st : CVState)
    (L : Nat) (m c : Model)
    (hlim : st.limit = some L) (hL : 0 < L)
    (hfull : st.children.length = L)
    (hnodup : (st.children.map View.vcid).Nodup)
    (hvis : ∃ v ∈ st.children, v.model.cid = m.cid)
    (hc : (st.collection.filter (fun x => !(x.cid == m.cid))).get? (L - 1)
        = some c)
    (hcf : f c = true)
    (hcfresh : ∀ v ∈ st.children, viewMatches v c = false) :
    (step f st (.remove m)).children.length = L
    ∧ ((step f st (.remove m)).children.map View.model).getLast? = some c := by
  -- the state after Backbone has removed `m` from the collection
  set coll' := st.collection.filter (fun x => !(x.cid == m.cid)) with hcoll
  -- the handler finds the first child whose model cid matches
  obtain ⟨v, hvmem, hvcid⟩ := hvis
  have hfindsome : st.children.find? (fun w => w.model.cid == m.cid) ≠ none := by
    rw [Ne, List.find?_eq_none]
    push_neg
    exact ⟨v, hvmem, by simp [hvcid]⟩
  obtain ⟨v0, hv0⟩ := Option.ne_none_iff_exists'.1 hfindsome
  have hv0mem : v0 ∈ st.children := List.mem_of_find?_eq_some hv0
  -- children after the removal
  set ch' := st.children.filter (fun w => !(w.vcid == v0.vcid)) with hch
  have hlen' : ch'.length = L - 1 := by
    rw [hch, filter_out_view_length st.children v0 hv0mem hnodup, hfull]
  have heff : effLimit st.limit coll'.length = L := by
    rw [hlim, effLimit_of_pos L hL]
  -- the backfill window is exactly [c]
  have hcoll_get : coll'.drop (L - 1) = c :: coll'.drop (L - 1 + 1) := by
    obtain ⟨hlt, hget⟩ := List.get?_eq_some.1 hc
    rw [List.drop_eq_getElem_cons hlt]
    simp [List.get_eq_getElem] at hget
    rw [hget]
  -- no removed-state child matches the backfill model
  have hfind_c : findViewByModel ch' c = none := by
    rw [findVBM_none_iff]
    intro w hw
    exact hcfresh w (List.mem_filter.1 hw).1
  -- now unfold the handler
  show (removeItemView f { st with collection := coll' } m).children.length = L
    ∧ ((removeItemView f { st with collection := coll' } m).children.map
        View.model).getLast? = some c
  unfold removeItemView
  simp only [hv0]
  have hdiff : effLimit st.limit coll'.length - ch'.length = 1 := by
    rw [heff, hlen']
    omega
  simp only [hch.symm, hdiff]
  rw [show ch'.length = L - 1 from hlen', hcoll_get]
  simp only [List.take_succ_cons, List.take_zero, List.foldl_cons, List.foldl_nil]
  rw [addItemView_success f _ c none hfind_c (by simp [hlen', heff]; omega) hcf]
  constructor
  · simp [hlen']
    omega
  · simp

/-! ## C8: header clicks drive `sortByColumn` -/

/-- The clicked affector's icon after `updateHeaderIcons`, as a function of
the icon it had before: down toggles to up, up to down, bare to up. -/
theorem clickedIcon_updateHeaderIcons (headers : List THeader) (t : String)
    (i : SortIcon)
    (hicons : ∀ h ∈ headers, h.title = t → h.icon = i)
    (hmem : ∃ h ∈ headers, h.title = t) :
    clickedIcon (updateHeaderIcons headers t) t = toggleIcon i := by
  induction headers with
  | nil =>
    obtain ⟨h, hh, _⟩ := hmem
    cases hh
  | cons h rest ih =>
    unfold updateHeaderIcons clickedIcon
    simp only [List.map_cons]
    by_cases ht : h.title = t
    · rw [if_neg (by simp [ht])]
      rw [List.find?_cons_of_pos _ (by simp [ht])]
      have hi := hicons h (by simp) ht
      cases i <;> simp [hi, toggleIcon]
    · rw [if_pos (by simp [ht])]
      rw [List.find?_cons_of_neg _ (by simp [ht])]
      have := ih (fun h' hh' => hicons h' (by simp [hh']))
        (by
          obtain ⟨h', hh', ht'⟩ := hmem
          rcases List.mem_cons.1 hh' with rfl | hh'
          · exact absurd ht' ht
          · exact ⟨h', hh', ht'⟩)
      unfold updateHeaderIcons clickedIcon at this
      exact this

/-- After `updateHeaderIcons`, the clicked title's affectors show the toggled
icon and every other affector is reset to unsorted. -/
theorem updateHeaderIcons_mem (headers : List THeader) (t : String)
    (hall : ∀ h ∈ headers, h.icon = .unsorted) :
    ∀ h' ∈ updateHeaderIcons headers t,
      (h'.title = t → h'.icon = .ascending)
      ∧ (h'.title ≠ t → h'.icon = .unsorted) := by
  intro h' hh'
  obtain ⟨h, hh, rfl⟩ := List.mem_map.1 hh'
  by_cases ht : h.title = t
  · rw [if_neg (by simp [ht])]
    have hi := hall h hh
    simp [hi, ht]
  · rw [if_pos (by simp [ht])]
    simp [ht]

/-- Titles survive `updateHeaderIcons`. -/
theorem updateHeaderIcons_title_mem (headers : List THeader) (t : String)
    (hmem : ∃ h ∈ headers, h.title = t) :
    ∃ h' ∈ updateHeaderIcons headers t, h'.title = t := by
  obtain ⟨h, hh, ht⟩ := hmem
  refine ⟨_, List.mem_map_of_mem _ hh, ?_⟩
  by_cases hc : h.title = t
  · rw [if_neg (by simp [hc])]
    exact hc
  · exact absurd ht hc

/-- C8.  On a TableView whose headers include a "Name" affector ("name" is
in the sortable allow-list) with every affector unsorted and more than one
model in the collection: the first click on "Name" issues exactly one
`sortByColumn("name", "asc")` request and leaves the "Name" affector
ascending with all other affectors unsorted; the immediately following
second click issues exactly one `sortByColumn("name", "desc")`. -/
theorem headerClick_sorts (ts : TableState)
    (hlen : ts.collectionLength > 1)
    (hall : ∀ h ∈ ts.headers, h.icon = .unsorted)
    (hmem : ∃ h ∈ ts.headers, h.title = "Name") :
    sortable "Name" = true
    ∧ (sortClick ts "Name").calls = ts.calls ++ [("name", "asc")]
    ∧ (∀ h ∈ (sortClick ts "Name").headers,
        (h.title = "Name" → h.icon = .ascending)
        ∧ (h.title ≠ "Name" → h.icon = .unsorted))
    ∧ (sortClick (sortClick ts "Name") "Name").calls
        = ts.calls ++ [("name", "asc"), ("name", "desc")] := by
  have hasc : clickedIcon (updateHeaderIcons ts.headers "Name") "Name"
      = .ascending := by
    rw [clickedIcon_updateHeaderIcons ts.headers "Name" .unsorted
      (fun h hh _ => hall h hh) hmem]
    rfl
  have hdesc : clickedIcon
      (updateHeaderIcons (updateHeaderIcons ts.headers "Name") "Name") "Name"
      = .descending := by
    rw [clickedIcon_updateHeaderIcons _ "Name" .ascending
      (fun h hh ht => (updateHeaderIcons_mem ts.headers "Name" hall h hh).1 ht)
      (updateHeaderIcons_title_mem ts.headers "Name" hmem)]
    rfl
  have hlower : jsToLower "Name" = "name" := by decide
  refine ⟨by decide, ?_, ?_, ?_⟩
  · simp [sortClick, hlen, hasc, hlower]
  · have h3 : (sortClick ts "Name").headers
        = updateHeaderIcons ts.headers "Name" := by
      simp [sortClick, hlen]
    rw [h3]
    exact updateHeaderIcons_mem ts.headers "Name" hall
  · simp [sortClick, hlen, hasc, hdesc, hlower]

/-- Witness for C8 at the spec's concrete table:
headers ["Name", "Status"], collection of 3. -/
theorem headerClick_sorts_witness :
    sortable "Name" = true
    ∧ (sortClick ⟨[⟨"Name", .unsorted⟩, ⟨"Status", .unsorted⟩], 3, []⟩
        "Name").calls = [] ++ [("name", "asc")]
    ∧ (∀ h ∈ (sortClick ⟨[⟨"Name", .unsorted⟩, ⟨"Status", .unsorted⟩], 3, []⟩
        "Name").headers,
        (h.title = "Name" → h.icon = .ascending)
        ∧ (h.title ≠ "Name" → h.icon = .unsorted))
    ∧ (sortClick (sortClick ⟨[⟨"Name", .unsorted⟩, ⟨"Status", .unsorted⟩], 3, []⟩
        "Name") "Name").calls = [] ++ [("name", "asc"), ("name", "desc")] :=
  headerClick_sorts ⟨[⟨"Name", .unsorted⟩, ⟨"Status", .unsorted⟩], 3, []⟩
    (by decide) (by decide)
    ⟨⟨"Name", .unsorted⟩, by simp, rfl⟩

/-- Witness for C3 amended at the spec's concrete instance:
Collection = [A,B,C], limit 2, always-true filter, remove the visible B —
exactly 2 children remain and the backfilled last child is a view for C. -/
theorem removeItemView_backfills_window_witness :
    (step (fun _ => true)
        (renderCV (initCollectionView (fun _ => true) [mA, mB, mC] (some 2) 0))
        (.remove mB)).children.length = 2
    ∧ ((step (fun _ => true)
        (renderCV (initCollectionView (fun _ => true) [mA, mB, mC] (some 2) 0))
        (.remove mB)).children.map View.model).getLast? = some mC :=
  removeItemView_backfills_window (fun _ => true)
    (renderCV (initCollectionView (fun _ => true) [mA, mB, mC] (some 2) 0))
    2 mB mC (by decide) (by decide) (by decide) (by decide) (by decide)
    (by decide) rfl (by decide)

/-! ## C9: the show-all toggle -/

/-- `onCollectionSort` restores the saved limit after the pass. -/
theorem onCollectionSort_limit (f : Model → Bool) (st : CVState) :
    (onCollectionSort f st).limit = st.limit := rfl

/-- An eight-model collection with distinct identities, for the concrete
show-all scenario. -/
def models8 : List Model :=
  [⟨0, none⟩, ⟨1, none⟩, ⟨2, none⟩, ⟨3, none⟩,
    ⟨4, none⟩, ⟨5, none⟩, ⟨6, none⟩, ⟨7, none⟩]

/-- C9.  `toggleShowAll` swaps the active limit with the stored one and
forces a reconciliation pass, so toggling twice restores the original limit
on any table not in show-all state; in the concrete instance — limit 5 over
a collection of 8 matching models — toggling on shows all 8 children and
toggling off restores exactly 5. -/
theorem toggleShowAll_swaps_limit :
    (∀ (f : Model → Bool) (tv : TVState), tv.showAll = false →
        (toggleShowAll f tv).cv.limit = none
        ∧ (toggleShowAll f (toggleShowAll f tv)).cv.limit = tv.cv.limit)
    ∧ (toggleShowAll (fun _ => true)
        ⟨renderCV (initCollectionView (fun _ => true) models8 (some 5) 0),
          false, none⟩).cv.dom.length = 8
    ∧ (toggleShowAll (fun _ => true) (toggleShowAll (fun _ => true)
        ⟨renderCV (initCollectionView (fun _ => true) models8 (some 5) 0),
          false, none⟩)).cv.dom.length = 5 := by
  refine ⟨?_, by decide, by decide⟩
  intro f tv hsa
  constructor
  · simp [toggleShowAll, hsa, onCollectionSort_limit]
  · simp [toggleShowAll, hsa, onCollectionSort_limit]

/-- Witness for C9's general half at a concrete one-model table. -/
theorem toggleShowAll_swaps_limit_witness :
    (false = false)
    ∧ ((toggleShowAll (fun _ => true)
        ⟨renderCV (initCollectionView (fun _ => true) [mA] (some 3) 0),
          false, none⟩).cv.limit = none
      ∧ (toggleShowAll (fun _ => true) (toggleShowAll (fun _ => true)
          ⟨renderCV (initCollectionView (fun _ => true) [mA] (some 3) 0),
            false, none⟩)).cv.limit
        = (⟨renderCV (initCollectionView (fun _ => true) [mA] (some 3) 0),
            false, none⟩ : TVState).cv.limit) :=
  ⟨rfl, toggleShowAll_swaps_limit.1 (fun _ => true)
    ⟨renderCV (initCollectionView (fun _ => true) [mA] (some 3) 0),
      false, none⟩ rfl⟩

/-! ## C4: idempotence of the reconciliation pass

The development below proves that running `onCollectionSort` a second time,
with no intervening state change, reproduces the first run's outcome
exactly.  The working notions: `lastMatchView` captures which view the
last-match-wins `findViewByModel` lookup selects, and the loop invariant
`LoopInv` records the well-formedness of a live CollectionView (fresh,
distinct view cids; children's models drawn from the cid-injective scope;
rendered; fragment inside children). -/

theorem lastMatchView_snoc (l : List View) (v : View) (m : Model) :
    lastMatchView (l ++ [v]) m
      = if viewMatches v m then some v else lastMatchView l m := by
  simp [lastMatchView, List.foldl_append]

theorem selView_snoc (l : List View) (v : View) (m : Model) :
    selView (l ++ [v]) m = if viewMatches v m then some v else selView l m := by
  unfold selView
  rw [findVBM_snoc]
  cases hv : viewMatches v m with
  | true =>
    simp only [if_true]
    congr 1
    rw [List.getD_eq_getElem?_getD, List.getElem?_concat_length]
    rfl
  | false =>
    simp only [Bool.false_eq_true, if_false]
    cases hfind : findViewByModel l m with
    | none => rfl
    | some i =>
      have hi := findVBM_lt l m i hfind
      simp only [Option.some.injEq]
      exact List.getD_append l [v] default i hi

theorem selView_eq_lastMatchView (l : List View) (m : Model) :
    selView l m = lastMatchView l m := by
  induction l using List.reverseRecOn with
  | nil => rfl
  | append_singleton l v ih =>
    rw [selView_snoc, lastMatchView_snoc, ih]

theorem lastMatchView_none_iff (l : List View) (m : Model) :
    lastMatchView l m = none ↔ ∀ v ∈ l, viewMatches v m = false := by
  rw [← selView_eq_lastMatchView]
  unfold selView
  cases hfind : findViewByModel l m with
  | none => simpa using (findVBM_none_iff l m).1 hfind
  | some i =>
    simp only [Option.some_ne_none, false_iff]
    intro hall
    have := (findVBM_none_iff l m).2 hall
    rw [hfind] at this
    cases this

theorem lastMatchView_mem (l : List View) (m : Model) (v : View)
    (h : lastMatchView l m = some v) : v ∈ l ∧ viewMatches v m = true := by
  induction l using List.reverseRecOn generalizing v with
  | nil => cases h
  | append_singleton l w ih =>
    rw [lastMatchView_snoc] at h
    cases hw : viewMatches w m with
    | true =>
      rw [hw] at h
      simp only [if_true, Option.some.injEq] at h
      subst h
      exact ⟨by simp, hw⟩
    | false =>
      rw [hw] at h
      simp only [Bool.false_eq_true, if_false] at h
      obtain ⟨hmem, hmatch⟩ := ih v h
      exact ⟨by simp [hmem], hmatch⟩

theorem lastMatchView_append_nomatch (l1 l2 : List View) (m : Model)
    (h : ∀ w ∈ l2, viewMatches w m = false) :
    lastMatchView (l1 ++ l2) m = lastMatchView l1 m := by
  induction l2 using List.reverseRecOn with
  | nil => simp
  | append_singleton l2 w ih =>
    rw [← List.append_assoc, lastMatchView_snoc]
    rw [h w (by simp)]
    simp only [Bool.false_eq_true, if_false]
    exact ih (fun w' hw' => h w' (by simp [hw']))

theorem moveToEnd_of_fresh (frag : List View) (v : View)
    (h : ∀ w ∈ frag, w.vcid ≠ v.vcid) :
    moveToEnd frag v = frag ++ [v] := by
  unfold moveToEnd
  congr 1
  rw [List.filter_eq_self]
  intro w hw
  simp [h w hw]

theorem modelMatches_iff (a b : Model) :
    modelMatches a b = true
      ↔ (a.cid = b.cid ∨ ∃ k, a.id = some k ∧ b.id = some k) := by
  unfold modelMatches
  constructor
  · intro h
    rw [Bool.or_eq_true] at h
    rcases h with h1 | h2
    · exact Or.inl (eq_of_beq h1)
    · rw [Bool.and_eq_true] at h2
      obtain ⟨hs, he⟩ := h2
      obtain ⟨k, hk⟩ := Option.isSome_iff_exists.1 hs
      refine Or.inr ⟨k, hk, ?_⟩
      have hab : a.id = b.id := eq_of_beq he
      rw [← hab, hk]
  · intro h
    rcases h with h1 | ⟨k, ha, hb⟩
    · simp [h1]
    · simp [ha, hb]

theorem modelMatches_symm (a b : Model) (h : modelMatches a b = true) :
    modelMatches b a = true := by
  rw [modelMatches_iff] at h ⊢
  rcases h with hc | ⟨k, h1, h2⟩
  · exact Or.inl hc.symm
  · exact Or.inr ⟨k, h2, h1⟩

/-- Transitivity of the identity-match relation over a cid-injective scope:
if `x` and `z` both match `y`, then `x` matches `z`. -/
theorem modelMatches_trans_of_inj (S : List Model) (hS : CidInj S)
    (x y z : Model) (hx : x ∈ S) (hy : y ∈ S) (hz : z ∈ S)
    (h1 : modelMatches x y = true) (h2 : modelMatches z y = true) :
    modelMatches x z = true := by
  rw [modelMatches_iff] at h1 h2 ⊢
  rcases h1 with hc | ⟨k, hxk, hyk⟩
  · have hxy : x = y := hS x hx y hy hc
    subst hxy
    rcases h2 with hc2 | ⟨k, hzk, hxk⟩
    · exact Or.inl hc2.symm
    · exact Or.inr ⟨k, hxk, hzk⟩
  · rcases h2 with hc2 | ⟨k', hzk, hyk'⟩
    · have hzy : z = y := hS z hz y hy hc2
      subst hzy
      exact Or.inr ⟨k, hxk, hyk⟩
    · have hkk : k' = k := by
        rw [hyk] at hyk'
        cases hyk'
        rfl
      subst hkk
      exact Or.inr ⟨k', hxk, hzk⟩

/-- Everything `addItemView` can do: leave the state alone, or append one
fresh view when the model is unseen, unfiltered and within the limit. -/
theorem addItemView_cases (f : Model → Bool) (st : CVState) (m : Model)
    (c : Option (List View)) :
    (addItemView f st m c).1 = st
    ∨ (findViewByModel st.children m = none
        ∧ f m = true
        ∧ st.children.length < effLimit st.limit st.collection.length
        ∧ (addItemView f st m c).1
          = { st with children := st.children ++ [⟨st.nextCid, m⟩],
                      nextCid := st.nextCid + 1,
                      dom := if st.rendered ∧ c = none then
                               st.dom ++ [⟨st.nextCid, m⟩]
                             else st.dom }) := by
  cases hfind : findViewByModel st.children m with
  | some i =>
    left
    rw [addItemView_of_found f st m c i hfind]
  | none =>
    by_cases hfull : effLimit st.limit st.collection.length ≤ st.children.length
    · left
      rw [addItemView_of_full f st m c hfull]
    · cases hf : f m with
      | false =>
        left
        rw [addItemView_of_filtered f st m c hf]
      | true =>
        right
        exact ⟨rfl, rfl, by omega,
          addItemView_success f st m c hfind (by omega) hf⟩

theorem addItemView_fields (f : Model → Bool) (st : CVState) (m : Model)
    (c : Option (List View)) :
    (addItemView f st m c).1.limit = st.limit
    ∧ (addItemView f st m c).1.collection = st.collection
    ∧ (addItemView f st m c).1.rendered = st.rendered := by
  rcases addItemView_cases f st m c with h | ⟨_, _, _, h⟩ <;> rw [h] <;>
    exact ⟨rfl, rfl, rfl⟩

theorem addItemView_dom_some (f : Model → Bool) (st : CVState) (m : Model)
    (frag : List View) :
    (addItemView f st m (some frag)).1.dom = st.dom := by
  rcases addItemView_cases f st m (some frag) with h | ⟨_, _, _, h⟩ <;> rw [h] <;>
    simp

/-- The full pair `addItemView` returns on a successful add into an explicit
fragment on a rendered view. -/
theorem addItemView_some_pair (f : Model → Bool) (st : CVState) (m : Model)
    (frag : List View)
    (hfind : findViewByModel st.children m = none)
    (hlen : st.children.length < effLimit st.limit st.collection.length)
    (hf : f m = true) (hr : st.rendered = true) :
    addItemView f st m (some frag)
      = ({ st with children := st.children ++ [⟨st.nextCid, m⟩],
                   nextCid := st.nextCid + 1 },
          some (frag ++ [⟨st.nextCid, m⟩])) := by
  unfold addItemView
  rw [hfind]
  have hguard : (decide (st.children.length ≥ effLimit st.limit st.collection.length)
      || !(f m)) = false := by
    simp [hf]
    omega
  simp only [ge_iff_le, hguard, Bool.false_eq_true, if_false]
  simp [hr]

theorem sortLoop_cons_trunc (f : Model → Bool) (sl : Option Nat)
    (st : CVState) (frag : List View) (r : Nat) (m : Model) (ms : List Model)
    (h : limitTruncates sl r = true) :
    sortLoop f sl st frag r (m :: ms) = sortLoop f sl st frag r ms := by
  simp [sortLoop, h]

theorem sortLoop_cons_match (f : Model → Bool) (sl : Option Nat)
    (st : CVState) (frag : List View) (r : Nat) (m : Model) (ms : List Model)
    (v : View) (h1 : limitTruncates sl r = false)
    (h2 : lastMatchView st.children m = some v) :
    sortLoop f sl st frag r (m :: ms)
      = sortLoop f sl st (moveToEnd frag v) (r + 1) ms := by
  have hsel : selView st.children m = some v := by
    rw [selView_eq_lastMatchView]
    exact h2
  unfold selView at hsel
  cases hfind : findViewByModel st.children m with
  | none =>
    rw [hfind] at hsel
    cases hsel
  | some i =>
    rw [hfind] at hsel
    simp only [Option.some.injEq] at hsel
    have hsel' : st.children[i]?.getD default = v := by
      rw [← List.getD_eq_getElem?_getD]
      exact hsel
    simp [sortLoop, h1, hfind, hsel']

theorem sortLoop_cons_nomatch (f : Model → Bool) (sl : Option Nat)
    (st : CVState) (frag : List View) (r : Nat) (m : Model) (ms : List Model)
    (h1 : limitTruncates sl r = false)
    (h2 : lastMatchView st.children m = none) :
    sortLoop f sl st frag r (m :: ms)
      = sortLoop f sl (addItemView f st m (some frag)).1
          ((addItemView f st m (some frag)).2.getD frag) (r + 1) ms := by
  have hfind : findViewByModel st.children m = none := by
    rw [findVBM_none_iff]
    exact (lastMatchView_none_iff _ _).1 h2
  simp [sortLoop, h1, hfind]

theorem sortLoop_fields (f : Model → Bool) (sl : Option Nat) (ms : List Model) :
    ∀ (st : CVState) (frag : List View) (r : Nat),
    (sortLoop f sl st frag r ms).1.limit = st.limit
    ∧ (sortLoop f sl st frag r ms).1.collection = st.collection
    ∧ (sortLoop f sl st frag r ms).1.rendered = st.rendered
    ∧ (sortLoop f sl st frag r ms).1.dom = st.dom := by
  induction ms with
  | nil => intro st frag r; exact ⟨rfl, rfl, rfl, rfl⟩
  | cons m ms ih =>
    intro st frag r
    cases htr : limitTruncates sl r with
    | true =>
      rw [sortLoop_cons_trunc f sl st frag r m ms htr]
      exact ih st frag r
    | false =>
      cases hlast : lastMatchView st.children m with
      | some v =>
        rw [sortLoop_cons_match f sl st frag r m ms v htr hlast]
        exact ih st (moveToEnd frag v) (r + 1)
      | none =>
        rw [sortLoop_cons_nomatch f sl st frag r m ms htr hlast]
        obtain ⟨hl, hc, hr, hd⟩ := ih (addItemView f st m (some frag)).1
          ((addItemView f st m (some frag)).2.getD frag) (r + 1)
        obtain ⟨hl', hc', hr'⟩ := addItemView_fields f st m (some frag)
        have hd' := addItemView_dom_some f st m frag
        exact ⟨hl.trans hl', hc.trans hc', hr.trans hr', hd.trans hd'⟩

theorem sortLoop_growth (f : Model → Bool) (sl : Option Nat) (ms : List Model) :
    ∀ (st : CVState) (frag : List View) (r : Nat),
    st.nextCid ≤ (sortLoop f sl st frag r ms).1.nextCid
    ∧ ∃ Δ, (sortLoop f sl st frag r ms).1.children = st.children ++ Δ
        ∧ ∀ w ∈ Δ, st.nextCid ≤ w.vcid := by
  induction ms with
  | nil =>
    intro st frag r
    exact ⟨le_refl _, [], by simp [sortLoop], by simp⟩
  | cons m ms ih =>
    intro st frag r
    cases htr : limitTruncates sl r with
    | true =>
      rw [sortLoop_cons_trunc f sl st frag r m ms htr]
      exact ih st frag r
    | false =>
      cases hlast : lastMatchView st.children m with
      | some v =>
        rw [sortLoop_cons_match f sl st frag r m ms v htr hlast]
        exact ih st (moveToEnd frag v) (r + 1)
      | none =>
        rw [sortLoop_cons_nomatch f sl st frag r m ms htr hlast]
        rcases addItemView_cases f st m (some frag) with h | ⟨_, _, _, h⟩
        · rw [h]
          exact ih st _ (r + 1)
        · rw [h]
          obtain ⟨hnext, Δ, hch, hΔ⟩ := ih
            { st with children := st.children ++ [⟨st.nextCid, m⟩],
                      nextCid := st.nextCid + 1,
                      dom := if st.rendered ∧ (some frag : Option (List View)) = none
                             then st.dom ++ [⟨st.nextCid, m⟩] else st.dom }
            ((addItemView f st m (some frag)).2.getD frag) (r + 1)
          have hnext' : st.nextCid + 1 ≤ _ := hnext
          have hch' : _ = (st.children ++ [(⟨st.nextCid, m⟩ : View)]) ++ Δ := hch
          refine ⟨by omega, ⟨st.nextCid, m⟩ :: Δ, ?_, ?_⟩
          · rw [hch']
            simp
          · intro w hw
            rcases List.mem_cons.1 hw with rfl | hw
            · exact le_refl _
            · have h2 : st.nextCid + 1 ≤ w.vcid := hΔ w hw
              omega

theorem sortLoop_full_nocreate (f : Model → Bool) (sl : Option Nat)
    (ms : List Model) :
    ∀ (st : CVState) (frag : List View) (r : Nat),
    st.limit = some (st.collection.length + 1) →
    st.collection.length + 1 ≤ st.children.length →
    (sortLoop f sl st frag r ms).1 = st := by
  induction ms with
  | nil => intro st frag r _ _; rfl
  | cons m ms ih =>
    intro st frag r hlim hfull
    cases htr : limitTruncates sl r with
    | true =>
      rw [sortLoop_cons_trunc f sl st frag r m ms htr]
      exact ih st frag r hlim hfull
    | false =>
      cases hlast : lastMatchView st.children m with
      | some v =>
        rw [sortLoop_cons_match f sl st frag r m ms v htr hlast]
        exact ih st (moveToEnd frag v) (r + 1) hlim hfull
      | none =>
        rw [sortLoop_cons_nomatch f sl st frag r m ms htr hlast]
        have heff : effLimit st.limit st.collection.length
            = st.collection.length + 1 := by
          rw [hlim]
          simp [effLimit]
        have hblocked := addItemView_of_full f st m (some frag) (by omega)
        rw [hblocked]
        exact ih st frag (r + 1) hlim hfull

/-- Views created during the `onCollectionSort` walk never match a model
that already had a matching view when the walk reached it: a later creation
for model `m'` happens only when nothing matches `m'`, and by transitivity
over the cid-injective scope a view matching `m₀` would then match `m'`. -/
theorem sortLoop_new_views_no_match (f : Model → Bool) (sl : Option Nat)
    (S : List Model) (hS : CidInj S) (ms : List Model) :
    ∀ (st : CVState) (frag : List View) (r : Nat) (m₀ : Model),
    (∀ m' ∈ ms, m' ∈ S) → (∀ v ∈ st.children, v.model ∈ S) → m₀ ∈ S →
    (∃ v ∈ st.children, viewMatches v m₀ = true) →
    ∀ w ∈ (sortLoop f sl st frag r ms).1.children, w ∉ st.children →
      viewMatches w m₀ = false := by
  induction ms with
  | nil =>
    intro st frag r m₀ _ _ _ _ w hw hnmem
    exact absurd hw hnmem
  | cons m ms ih =>
    intro st frag r m₀ hms hscope hm₀ hex w hw hnmem
    cases htr : limitTruncates sl r with
    | true =>
      rw [sortLoop_cons_trunc f sl st frag r m ms htr] at hw
      exact ih st frag r m₀ (fun m' h => hms m' (by simp [h])) hscope hm₀ hex
        w hw hnmem
    | false =>
      cases hlast : lastMatchView st.children m with
      | some v =>
        rw [sortLoop_cons_match f sl st frag r m ms v htr hlast] at hw
        exact ih st (moveToEnd frag v) (r + 1) m₀
          (fun m' h => hms m' (by simp [h])) hscope hm₀ hex w hw hnmem
      | none =>
        rw [sortLoop_cons_nomatch f sl st frag r m ms htr hlast] at hw
        rcases addItemView_cases f st m (some frag) with h | ⟨hfind, _, _, h⟩
        · rw [h] at hw
          exact ih st _ (r + 1) m₀ (fun m' hm => hms m' (by simp [hm]))
            hscope hm₀ hex w hw hnmem
        · rw [h] at hw
          have hw₀ : viewMatches (⟨st.nextCid, m⟩ : View) m₀ = false := by
            cases hvm : viewMatches (⟨st.nextCid, m⟩ : View) m₀ with
            | false => rfl
            | true =>
              exfalso
              have hmm : modelMatches m m₀ = true := hvm
              obtain ⟨v, hvmem, hvmatch⟩ := hex
              have hvm' : modelMatches v.model m = true :=
                modelMatches_trans_of_inj S hS v.model m₀ m
                  (hscope v hvmem) hm₀ (hms m (by simp)) hvmatch hmm
              have hnone := (lastMatchView_none_iff st.children m).1 hlast v hvmem
              have : viewMatches v m = true := hvm'
              rw [this] at hnone
              cases hnone
          by_cases hwmem : w ∈ st.children ++ [(⟨st.nextCid, m⟩ : View)]
          · rcases List.mem_append.1 hwmem with hmem | hmem
            · exact absurd hmem hnmem
            · simp only [List.mem_singleton] at hmem
              subst hmem
              exact hw₀
          · refine ih
              { st with children := st.children ++ [⟨st.nextCid, m⟩],
                        nextCid := st.nextCid + 1,
                        dom := if st.rendered ∧ (some frag : Option (List View)) = none
                               then st.dom ++ [⟨st.nextCid, m⟩] else st.dom }
              ((addItemView f st m (some frag)).2.getD frag) (r + 1) m₀
              (fun m' hm => hms m' (by simp [hm])) ?_ hm₀ ?_ w hw hwmem
            · intro v hv
              rcases List.mem_append.1 hv with hv | hv
              · exact hscope v hv
              · simp only [List.mem_singleton] at hv
                subst hv
                exact hms m (by simp)
            · obtain ⟨v, hvmem, hvmatch⟩ := hex
              exact ⟨v, List.mem_append.2 (Or.inl hvmem), hvmatch⟩

/-- `addItemView` into an explicit fragment neither reads nor writes the
items container, so a different `dom` passes through unchanged. -/
theorem addItemView_dom_swap (f : Model → Bool) (st : CVState) (m : Model)
    (frag : List View) (d : List View) :
    addItemView f { st with dom := d } m (some frag)
      = ({ (addItemView f st m (some frag)).1 with dom := d },
          (addItemView f st m (some frag)).2) := by
  unfold addItemView
  cases hfind : findViewByModel st.children m with
  | some i => rfl
  | none =>
    by_cases hguard : (decide (st.children.length ≥
        effLimit st.limit st.collection.length) || !(f m)) = true
    · simp only [hguard, if_true]
    · simp only [Bool.not_eq_true] at hguard
      simp only [hguard, Bool.false_eq_true, if_false]
      cases hr : st.rendered with
      | true => simp [hr]
      | false => simp [hr]

/-- The whole walk ignores the items container: starting it with a different
`dom` only swaps that field in the outcome. -/
theorem sortLoop_dom_swap (f : Model → Bool) (sl : Option Nat)
    (ms : List Model) :
    ∀ (st : CVState) (frag : List View) (r : Nat) (d : List View),
    sortLoop f sl { st with dom := d } frag r ms
      = ({ (sortLoop f sl st frag r ms).1 with dom := d },
          (sortLoop f sl st frag r ms).2) := by
  induction ms with
  | nil => intro st frag r d; rfl
  | cons m ms ih =>
    intro st frag r d
    cases htr : limitTruncates sl r with
    | true =>
      rw [sortLoop_cons_trunc f sl { st with dom := d } frag r m ms htr,
        sortLoop_cons_trunc f sl st frag r m ms htr]
      exact ih st frag r d
    | false =>
      cases hlast : lastMatchView st.children m with
      | some v =>
        have hlast' : lastMatchView ({ st with dom := d } : CVState).children m
            = some v := hlast
        rw [sortLoop_cons_match f sl { st with dom := d } frag r m ms v htr hlast',
          sortLoop_cons_match f sl st frag r m ms v htr hlast]
        exact ih st (moveToEnd frag v) (r + 1) d
      | none =>
        have hlast' : lastMatchView ({ st with dom := d } : CVState).children m
            = none := hlast
        rw [sortLoop_cons_nomatch f sl { st with dom := d } frag r m ms htr hlast',
          sortLoop_cons_nomatch f sl st frag r m ms htr hlast]
        rw [addItemView_dom_swap f st m frag d]
        exact ih (addItemView f st m (some frag)).1
          ((addItemView f st m (some frag)).2.getD frag) (r + 1) d

/-- The fixpoint at the heart of idempotence: re-running the
`onCollectionSort` walk from the state the first run produced — same
fragment seed, same counter, same model list — reproduces the first run's
outcome exactly.  Pass two finds, for every processed model, exactly the
view pass one selected or created, and moves it the same way. -/
theorem sortLoop_idem (f : Model → Bool) (sl : Option Nat)
    (S : List Model) (hS : CidInj S) (ms : List Model) :
    ∀ (st : CVState) (frag : List View) (r : Nat),
    (∀ m' ∈ ms, m' ∈ S) → (∀ m' ∈ ms, f m' = true) →
    st.limit = some (st.collection.length + 1) →
    LoopInv S st frag →
    sortLoop f sl (sortLoop f sl st frag r ms).1 frag r ms
      = sortLoop f sl st frag r ms := by
  induction ms with
  | nil => intro st frag r _ _ _ _; rfl
  | cons m ms ih =>
    intro st frag r hms hmsf hlim inv
    by_cases hbig : st.collection.length + 1 ≤ st.children.length
    · have hres := sortLoop_full_nocreate f sl (m :: ms) st frag r hlim hbig
      rw [hres]
    · cases htr : limitTruncates sl r with
      | true =>
        rw [sortLoop_cons_trunc f sl st frag r m ms htr]
        rw [sortLoop_cons_trunc f sl _ frag r m ms htr]
        exact ih st frag r (fun m' h => hms m' (by simp [h]))
          (fun m' h => hmsf m' (by simp [h])) hlim inv
      | false =>
        cases hlast : lastMatchView st.children m with
        | some v =>
          obtain ⟨hvmem, hvmatch⟩ := lastMatchView_mem st.children m v hlast
          rw [sortLoop_cons_match f sl st frag r m ms v htr hlast]
          obtain ⟨hnext, Δ, hch, hΔ⟩ :=
            sortLoop_growth f sl ms st (moveToEnd frag v) (r + 1)
          have hnomatch : ∀ w ∈ Δ, viewMatches w m = false := by
            intro w hwΔ
            refine sortLoop_new_views_no_match f sl S hS ms st
              (moveToEnd frag v) (r + 1) m (fun m' h => hms m' (by simp [h]))
              inv.scope (hms m (by simp)) ⟨v, hvmem, hvmatch⟩ w ?_ ?_
            · rw [hch]
              exact List.mem_append.2 (Or.inr hwΔ)
            · intro hcon
              have h1 := inv.fresh w hcon
              have h2 := hΔ w hwΔ
              omega
          have hlast2 : lastMatchView
              (sortLoop f sl st (moveToEnd frag v) (r + 1) ms).1.children m
              = some v := by
            rw [hch, lastMatchView_append_nomatch _ _ _ hnomatch, hlast]
          rw [sortLoop_cons_match f sl _ frag r m ms v htr hlast2]
          refine ih st (moveToEnd frag v) (r + 1)
            (fun m' h => hms m' (by simp [h]))
            (fun m' h => hmsf m' (by simp [h])) hlim ?_
          exact { scope := inv.scope, fresh := inv.fresh, nodup := inv.nodup,
                  rendered := inv.rendered,
                  fragSub := by
                    intro w hw
                    unfold moveToEnd at hw
                    rcases List.mem_append.1 hw with hw | hw
                    · exact inv.fragSub w (List.mem_of_mem_filter hw)
                    · simp only [List.mem_singleton] at hw
                      subst hw
                      exact hvmem }
        | none =>
          have hfind : findViewByModel st.children m = none := by
            rw [findVBM_none_iff]
            exact (lastMatchView_none_iff _ _).1 hlast
          have heff : effLimit st.limit st.collection.length
              = st.collection.length + 1 := by
            rw [hlim]
            simp [effLimit]
          have hpair := addItemView_some_pair f st m frag hfind (by omega)
            (hmsf m (by simp)) inv.rendered
          rw [sortLoop_cons_nomatch f sl st frag r m ms htr hlast, hpair]
          simp only [Option.getD_some]
          obtain ⟨hnext, Δ, hch, hΔ⟩ := sortLoop_growth f sl ms
            { st with children := st.children ++ [⟨st.nextCid, m⟩],
                      nextCid := st.nextCid + 1 }
            (frag ++ [⟨st.nextCid, m⟩]) (r + 1)
          have hch' : (sortLoop f sl
              { st with children := st.children ++ [⟨st.nextCid, m⟩],
                        nextCid := st.nextCid + 1 }
              (frag ++ [⟨st.nextCid, m⟩]) (r + 1) ms).1.children
              = (st.children ++ [(⟨st.nextCid, m⟩ : View)]) ++ Δ := hch
          have hΔ' : ∀ w ∈ Δ, st.nextCid + 1 ≤ w.vcid := hΔ
          have hw₀m : viewMatches (⟨st.nextCid, m⟩ : View) m = true :=
            modelMatches_refl m
          have hnomatch : ∀ w ∈ Δ, viewMatches w m = false := by
            intro w hwΔ
            refine sortLoop_new_views_no_match f sl S hS ms
              { st with children := st.children ++ [⟨st.nextCid, m⟩],
                        nextCid := st.nextCid + 1 }
              (frag ++ [⟨st.nextCid, m⟩]) (r + 1) m
              (fun m' h => hms m' (by simp [h])) ?_ (hms m (by simp))
              ⟨⟨st.nextCid, m⟩, by simp, hw₀m⟩ w ?_ ?_
            · intro v hv
              rcases List.mem_append.1 hv with hv | hv
              · exact inv.scope v hv
              · simp only [List.mem_singleton] at hv
                subst hv
                exact hms m (by simp)
            · rw [hch']
              exact List.mem_append.2 (Or.inr hwΔ)
            · intro hcon
              rcases List.mem_append.1 hcon with hcon | hcon
              · have h1 := inv.fresh w hcon
                have h2 := hΔ' w hwΔ
                omega
              · simp only [List.mem_singleton] at hcon
                subst hcon
                have h2 := hΔ' _ hwΔ
                simp at h2
          have hlast2 : lastMatchView (sortLoop f sl
              { st with children := st.children ++ [⟨st.nextCid, m⟩],
                        nextCid := st.nextCid + 1 }
              (frag ++ [⟨st.nextCid, m⟩]) (r + 1) ms).1.children m
              = some ⟨st.nextCid, m⟩ := by
            rw [hch', lastMatchView_append_nomatch _ _ _ hnomatch,
              lastMatchView_snoc, hw₀m]
            simp
          rw [sortLoop_cons_match f sl _ frag r m ms ⟨st.nextCid, m⟩ htr hlast2]
          have hmove : moveToEnd frag ⟨st.nextCid, m⟩
              = frag ++ [(⟨st.nextCid, m⟩ : View)] := by
            refine moveToEnd_of_fresh frag _ ?_
            intro w hwf
            have := inv.fresh w (inv.fragSub w hwf)
            simp only
            omega
          rw [hmove]
          refine ih { st with children := st.children ++ [⟨st.nextCid, m⟩],
                              nextCid := st.nextCid + 1 }
            (frag ++ [⟨st.nextCid, m⟩]) (r + 1)
            (fun m' h => hms m' (by simp [h]))
            (fun m' h => hmsf m' (by simp [h])) hlim ?_
          refine { scope := ?_, fresh := ?_, nodup := ?_,
                   rendered := inv.rendered, fragSub := ?_ }
          · intro v hv
            rcases List.mem_append.1 hv with hv | hv
            · exact inv.scope v hv
            · simp only [List.mem_singleton] at hv
              subst hv
              exact hms m (by simp)
          · intro v hv
            rcases List.mem_append.1 hv with hv | hv
            · have := inv.fresh v hv
              simp only
              omega
            · simp only [List.mem_singleton] at hv
              subst hv
              simp
          · simp only [List.map_append, List.map_singleton]
            rw [List.nodup_append]
            refine ⟨inv.nodup, by simp, ?_⟩
            intro x hx
            simp only [List.mem_singleton]
            intro hcon
            obtain ⟨v, hvmem, hvc⟩ := List.mem_map.1 hx
            have := inv.fresh v hvmem
            subst hcon
            omega
          · intro w hw
            rcases List.mem_append.1 hw with hw | hw
            · exact List.mem_append.2 (Or.inl (inv.fragSub w hw))
            · exact List.mem_append.2 (Or.inr hw)

/-- C4.  For every CollectionView state in operating condition — rendered,
Backbone-consistent model identities (cid-injective across children and
collection), fresh and distinct view cids — invoking the full reconciliation
pass twice in succession with no intervening change to collection contents,
filter predicate, search string or limit produces the same state, and in
particular the same visible child set and display order, as invoking it
once. -/
theorem onCollectionSort_idempotent (f : Model → Bool) (st : CVState)
    (hr : st.rendered = true)
    (hinj : CidInj (st.children.map View.model ++ st.collection))
    (hfresh : ∀ v ∈ st.children, v.vcid < st.nextCid)
    (hnodup : (st.children.map View.vcid).Nodup) :
    onCollectionSort f (onCollectionSort f st) = onCollectionSort f st
    ∧ (onCollectionSort f (onCollectionSort f st)).dom
        = (onCollectionSort f st).dom := by
  have hmain : onCollectionSort f (onCollectionSort f st) = onCollectionSort f st := by
    set R1 := (sortLoop f st.limit
      { st with limit := some (st.collection.length + 1) } [] 0
      (st.collection.filter f)).1 with hR1def
    set R2 := (sortLoop f st.limit
      { st with limit := some (st.collection.length + 1) } [] 0
      (st.collection.filter f)).2 with hR2def
    obtain ⟨hRlim, hRcoll, hRrend, hRdom⟩ := sortLoop_fields f st.limit
      (st.collection.filter f) { st with limit := some (st.collection.length + 1) }
      [] 0
    have hRlim' : R1.limit = some (st.collection.length + 1) := hRlim
    have hRcoll' : R1.collection = st.collection := hRcoll
    have h1 : onCollectionSort f st = { R1 with limit := st.limit, dom := R2 } :=
      rfl
    rw [h1]
    have h2 : onCollectionSort f { R1 with limit := st.limit, dom := R2 }
        = { (sortLoop f st.limit
              { R1 with limit := some (R1.collection.length + 1), dom := R2 }
              [] 0 (R1.collection.filter f)).1
            with limit := st.limit,
                 dom := (sortLoop f st.limit
                   { R1 with limit := some (R1.collection.length + 1), dom := R2 }
                   [] 0 (R1.collection.filter f)).2 } := rfl
    rw [h2, hRcoll']
    have h3 : sortLoop f st.limit
        { R1 with limit := some (st.collection.length + 1), dom := R2 }
        [] 0 (st.collection.filter f)
        = ({ (sortLoop f st.limit
              { R1 with limit := some (st.collection.length + 1) } [] 0
              (st.collection.filter f)).1 with dom := R2 },
            (sortLoop f st.limit
              { R1 with limit := some (st.collection.length + 1) } [] 0
              (st.collection.filter f)).2) :=
      sortLoop_dom_swap f st.limit (st.collection.filter f)
        { R1 with limit := some (st.collection.length + 1) } [] 0 R2
    rw [hRcoll'] at h3
    rw [h3]
    have h4 : ({ children := R1.children, collection := st.collection,
                 limit := some (st.collection.length + 1),
                 rendered := R1.rendered, dom := R1.dom,
                 nextCid := R1.nextCid } : CVState) = R1 := by
      rw [← hRlim', ← hRcoll']
    rw [h4]
    have hidem : sortLoop f st.limit R1 [] 0 (st.collection.filter f)
        = (R1, R2) := by
      have hres := sortLoop_idem f st.limit
        (st.children.map View.model ++ st.collection) hinj
        (st.collection.filter f)
        { st with limit := some (st.collection.length + 1) } [] 0
        (fun m' h => List.mem_append.2 (Or.inr (List.mem_filter.1 h).1))
        (fun m' h => (List.mem_filter.1 h).2)
        rfl
        { scope := fun v hv =>
            List.mem_append.2 (Or.inl (List.mem_map_of_mem View.model hv)),
          fresh := hfresh, nodup := hnodup, rendered := hr,
          fragSub := fun w hw => absurd hw (List.not_mem_nil w) }
      exact hres
    rw [hidem]
    simp [hRcoll']
  exact ⟨hmain, by rw [hmain]⟩

/-- Witness for C4 at the concrete rendered view over [A,B,C] with limit 2
and an always-true filter. -/
theorem onCollectionSort_idempotent_witness :
    onCollectionSort (fun _ => true) (onCollectionSort (fun _ => true)
        (renderCV (initCollectionView (fun _ => true) [mA, mB, mC] (some 2) 0)))
      = onCollectionSort (fun _ => true)
        (renderCV (initCollectionView (fun _ => true) [mA, mB, mC] (some 2) 0))
    ∧ (onCollectionSort (fun _ => true) (onCollectionSort (fun _ => true)
        (renderCV (initCollectionView (fun _ => true) [mA, mB, mC] (some 2) 0)))).dom
      = (onCollectionSort (fun _ => true)
        (renderCV (initCollectionView (fun _ => true) [mA, mB, mC] (some 2) 0))).dom :=
  onCollectionSort_idempotent (fun _ => true)
    (renderCV (initCollectionView (fun _ => true) [mA, mB, mC] (some 2) 0))
    (by decide) (by unfold CidInj; decide) (by decide) (by decide)
